import Mathlib

/-!
# myz: a self-extracting packer (`main.c`)

A shallow embedding of `main.c` and a verification of its header-patch engine,
its encoder configuration, its streaming codec loop and its two path runners.

Conventions of the embedding
* a byte is a `Nat` (its value, below 256); a buffer or a file is a `List Nat`;
* a pointer into a buffer is the index it points at, `NULL` is `none`;
* C integers are `Nat`/`Int` with an explicit `% 2 ^ w` wherever the C code
  converts to a narrower or an unsigned type;
* the environment (files, the codec library, the hardware) is an explicit
  argument: every library call whose outcome the program tests takes its
  outcome from that argument.
-/

namespace Myz

/-! ## Global configuration (`main.c` lines 14-33) -/

/-- `#define MAX_COMPRESS_THREAD 8` -/
def MAX_COMPRESS_THREAD : Int := 8

/-- `MY_ZIP_DATA_OFFSET = "MY_ZIP_DATA_OFFSET:18446744073709551616"`, as bytes. -/
def MY_ZIP_DATA_OFFSET : List Nat :=
  [77, 89, 95, 90, 73, 80, 95, 68, 65, 84, 65, 95, 79, 70, 70, 83, 69, 84, 58,
   49, 56, 52, 52, 54, 55, 52, 52, 48, 55, 51, 55, 48, 57, 53, 53, 49, 54, 49, 54]

/-- `#define MY_ZIP_DATA_OFFSET_LEN 39` -/
def MY_ZIP_DATA_OFFSET_LEN : Nat := 39

/-- `#define MY_ZIP_DATA_OFFSET_HEADER_LEN 19` -/
def MY_ZIP_DATA_OFFSET_HEADER_LEN : Nat := 19

/-- `MY_ZIP_MODE = "MY_ZIP_MODE:0"`, as bytes. -/
def MY_ZIP_MODE : List Nat :=
  [77, 89, 95, 90, 73, 80, 95, 77, 79, 68, 69, 58, 48]

/-- `#define MY_ZIP_MODE_LEN 13` -/
def MY_ZIP_MODE_LEN : Nat := 13

/-- `#define MY_ZIP_MODE_HEADER_LEN 12` -/
def MY_ZIP_MODE_HEADER_LEN : Nat := 12

/-- The label part of the Data-Offset Marker, `"MY_ZIP_DATA_OFFSET:"`: the first
`MY_ZIP_DATA_OFFSET_HEADER_LEN` bytes of the template. -/
def MY_ZIP_DATA_OFFSET_LABEL : List Nat :=
  MY_ZIP_DATA_OFFSET.take MY_ZIP_DATA_OFFSET_HEADER_LEN

/-- `BUFSIZ` of `<stdio.h>` (the value of glibc): the capacity of `inbuf` and of `outbuf`. -/
def BUFSIZ : Nat := 8192

/-- `ULONG_MAX` of `<limits.h>` on an LP64 platform. -/
def ULONG_MAX : Nat := 2 ^ 64 - 1

/-- `EXIT_SUCCESS` -/
def EXIT_SUCCESS : Nat := 0

/-- `EXIT_FAILURE` -/
def EXIT_FAILURE : Nat := 1

/-- `SIGSEGV`: the signal of an invalid memory reference. -/
def SIGSEGV : Nat := 11

/-- `SIGABRT`: the signal `abort` raises, as when the allocator detects a block
freed twice. -/
def SIGABRT : Nat := 6

/-- `LZMA_OK` -/
def LZMA_OK : Nat := 0

/-- `LZMA_STREAM_END` -/
def LZMA_STREAM_END : Nat := 1

/-! ## Marker search and header patch (`main.c` lines 348-454, 621-633) -/

/-- `memcmp(a, b, n)`: `0` when the first `n` bytes agree, the difference of the
first two bytes that differ otherwise. Reading past the end of a modelled object
(never done by `my_memmem`, whose loop keeps `needlelen <= haystacklen`) compares
unequal. -/
def memcmp : List Nat → List Nat → Nat → Int
  | _, _, 0 => 0
  | a :: as, b :: bs, n + 1 => if a = b then memcmp as bs n else (a : Int) - (b : Int)
  | _, _, _ + 1 => 1

/-- The `while(1)` loop of `my_memmem`: `p` is the index the pointer `p` has
reached, the last argument is the running `haystacklen`. With `haystacklen = 0`
the guard of the function forces `needlelen = 0`, so `memcmp` is `0` and the loop
leaves through `break`; the other branch of that case is never taken. -/
def my_memmem_loop (haystack needle : List Nat) (needlelen : Nat) : Nat → Nat → Option Nat
  | p, 0 =>
    if memcmp (haystack.drop p) needle needlelen = 0 then some p else none
  | p, haystacklen + 1 =>
    if memcmp (haystack.drop p) needle needlelen = 0 then some p
    else if haystacklen < needlelen then none
    else my_memmem_loop haystack needle needlelen (p + 1) haystacklen

/-- `my_memmem(haystack, haystacklen, needle, needlelen)`: the index of the first
match, or `none` for `NULL`. -/
def my_memmem (haystack : List Nat) (haystacklen : Nat) (needle : List Nat)
    (needlelen : Nat) : Option Nat :=
  if needlelen > haystacklen then none
  else my_memmem_loop haystack needle needlelen 0 haystacklen

/-- Storing the bytes `bs` at index `p` of a buffer (the store stays inside the
buffer whenever `p + bs.length ≤ buf.length`). -/
def store (buf : List Nat) (p : Nat) (bs : List Nat) : List Nat :=
  buf.take p ++ bs ++ buf.drop (p + bs.length)

/-- The decimal digits of `v`, most significant first, as ASCII; the first
argument bounds the number of digits. -/
def fmt_dec : Nat → Nat → List Nat
  | 0, _ => []
  | fuel + 1, v => if v < 10 then [48 + v] else fmt_dec fuel (v / 10) ++ [48 + v % 10]

/-- `sprintf(p, "%u", file_size)`: `%u` formats an `unsigned int`, so of the 64-bit
argument the low 32 bits are printed (ten digits at most), followed by the
terminating NUL byte. -/
def sprintf_u (buf : List Nat) (p : Nat) (arg : Nat) : List Nat :=
  store buf p (fmt_dec 10 (arg % 2 ^ 32) ++ [0])

/-- `get_file_size(file, &size)`: the first argument is what `fstat` reports
(`none` when it fails), the second the value `*size` holds before the call.
Returns the status and the value of `*size` after the call. -/
def get_file_size (fstat : Option Nat) (size : Nat) : Int × Nat :=
  match fstat with
  | none => (1, size)
  | some st_size => (0, st_size)

/-- What `init_decompress_header` meets when it opens and reads `argv[0]`. -/
structure ExeFile where
  /-- `fopen(file, "rb")` returns a stream -/
  fopen_ok : Bool
  /-- `st_size` reported by `fstat`, `none` when `fstat` fails -/
  fstat : Option Nat
  /-- the indeterminate value of the uninitialised local `file_size` -/
  file_size_init : Nat
  /-- `malloc(file_size)` returns a block -/
  malloc_ok : Bool
  /-- the bytes of the file -/
  contents : List Nat
  /-- `ferror(infile)` after the `fread` -/
  ferror : Bool
  /-- the byte found in the part of the block that `fread` did not fill -/
  heap_fill : Nat

/-- The file `argv[0]` when every library call succeeds and the file holds `image`. -/
def ExeFile.ok (image : List Nat) : ExeFile :=
  { fopen_ok := true, fstat := some image.length, file_size_init := 0,
    malloc_ok := true, contents := image, ferror := false, heap_fill := 0 }

/-- `init_decompress_header(file, &len)`: `none` for `NULL`, otherwise the patched
buffer `header` together with `*len` (a `uint32_t`). -/
def init_decompress_header (f : ExeFile) : Option (List Nat × Nat) :=
  if !f.fopen_ok then none
  else
    let r := get_file_size f.fstat f.file_size_init
    let file_size := r.2
    if r.1 < 0 then none
    else if !f.malloc_ok then none
    else
      let header := f.contents.take file_size ++
        List.replicate (file_size - (f.contents.take file_size).length) f.heap_fill
      if f.ferror then none
      else
        match my_memmem header file_size MY_ZIP_DATA_OFFSET MY_ZIP_DATA_OFFSET_LEN with
        | none => none
        | some p =>
          let p := p + MY_ZIP_DATA_OFFSET_HEADER_LEN
          let header := sprintf_u header p file_size
          match my_memmem header file_size MY_ZIP_MODE MY_ZIP_MODE_LEN with
          | none => none
          | some p =>
            let p := p + MY_ZIP_MODE_HEADER_LEN
            let header := header.set p 49
            some (header, file_size % 2 ^ 32)

/-- `load_mode()`: the value given to `operation_mode`, read from the bytes of the
constant `MY_ZIP_MODE` of the running image. -/
def load_mode (mode_marker : List Nat) : Nat :=
  if mode_marker.getD MY_ZIP_MODE_HEADER_LEN 0 = 48 then 0 else 1

/-- `isspace` in the C locale -/
def isspace (c : Nat) : Bool := c = 32 || (9 ≤ c && c ≤ 13)

/-- `isdigit` -/
def isdigit (c : Nat) : Bool := 48 ≤ c && c ≤ 57

/-- The digit loop of `strtoul` in base 10: stops at the first byte that is not a
digit (the terminating NUL included). -/
def strtoul_digits : List Nat → Nat → Nat
  | [], acc => acc
  | c :: cs, acc => if isdigit c then strtoul_digits cs (acc * 10 + (c - 48)) else acc

/-- `strtoul(s, &endptr, 10)`: the value returned and whether `errno` is set to
`ERANGE`. White space is skipped, one sign is accepted, a value above `ULONG_MAX`
is reported as `ULONG_MAX`, a negated value wraps. -/
def strtoul (s : List Nat) : Nat × Bool :=
  let s := s.dropWhile isspace
  let neg : Bool := s.head? = some 45
  let s := if s.head? = some 45 ∨ s.head? = some 43 then s.tail else s
  let v := strtoul_digits s 0
  if v > ULONG_MAX then (ULONG_MAX, true)
  else if neg then ((2 ^ 64 - v) % 2 ^ 64, false)
  else (v, false)

/-- `load_offset()`: `none` for the return value 1, otherwise the value given to
the `uint32_t data_offset`. The argument is the bytes of the constant
`MY_ZIP_DATA_OFFSET` of the running image, from its first byte on. -/
def load_offset (offset_marker : List Nat) : Option Nat :=
  let r := strtoul (offset_marker.drop MY_ZIP_DATA_OFFSET_HEADER_LEN)
  if r.1 = ULONG_MAX ∧ r.2 = true then none
  else some (r.1 % 2 ^ 32)

/-! ## Encoder configuration (`main.c` lines 198-264, 502-530) -/

/-- `LZMA_PRESET_DEFAULT` -/
def LZMA_PRESET_DEFAULT : Nat := 6

/-- `LZMA_PRESET_EXTREME` -/
def LZMA_PRESET_EXTREME : Nat := 2 ^ 31

/-- The conversion of an `int32_t` to `uint32_t`, as the usual arithmetic
conversions do when an `int32_t` is compared with a `uint32_t`. -/
def to_uint32 (x : Int) : Nat := (x % 2 ^ 32).toNat

/-- The global configuration that option parsing sets: `compress_level`,
`verbose`, `thread_cnt`, with their initial values. -/
structure Config where
  compress_level : Nat := LZMA_PRESET_DEFAULT
  verbose : Int := 0
  thread_cnt : Int := -1

/-- One option as `getopt_long` returns it; `level` and `thread` carry
`atoi(optarg)`. `thread` is the long option `--thread`, which takes an argument: the
option string `"l:evth:"` declares the short `-t` without one, so that `optarg` is
`NULL` there. -/
inductive CompressOpt where
  | level (val : Int)
  | extreme
  | verbose
  | thread (val : Int)
  | help
  | unknown

/-- The `switch` of `compress_main`, one option: the new configuration, or the
status the process exits with. -/
def compress_option (c : Config) : CompressOpt → Except Nat Config
  | .level val =>
    let val := if val < 0 then 0 else val
    let val := if val > 9 then 9 else val
    .ok { c with compress_level := val.toNat }
  | .extreme => .ok { c with compress_level := c.compress_level ||| LZMA_PRESET_EXTREME }
  | .verbose => .ok { c with verbose := 1 }
  | .thread val =>
    let thread_cnt := val
    let thread_cnt := if thread_cnt > MAX_COMPRESS_THREAD then MAX_COMPRESS_THREAD else thread_cnt
    let thread_cnt := if thread_cnt < 0 then 1 else thread_cnt
    .ok { c with thread_cnt := thread_cnt }
  | .help => .error EXIT_SUCCESS
  | .unknown => .error EXIT_FAILURE

/-- The `while ((opt = getopt_long(...)) != -1)` loop of `compress_main`. -/
def compress_options : Config → List CompressOpt → Except Nat Config
  | c, [] => .ok c
  | c, o :: os =>
    match compress_option c o with
    | .ok c1 => compress_options c1 os
    | .error status => .error status

/-- The options `lzma_mt` that `init_encoder` hands to `lzma_stream_encoder_mt`. -/
structure lzma_mt where
  flags : Nat
  block_size : Nat
  timeout : Nat
  preset : Nat
  threads : Nat

/-- The part of `init_encoder` that fills `mt`: `cputhreads` is what
`lzma_cputhreads()` returns (0 when the number cannot be detected). -/
def init_encoder_mt (c : Config) (cputhreads : Nat) : lzma_mt :=
  let threads := cputhreads
  let threads := if threads = 0 then 1 else threads
  let threads := if threads > to_uint32 c.thread_cnt then to_uint32 c.thread_cnt else threads
  { flags := 0, block_size := 0, timeout := 0, preset := c.compress_level, threads := threads }

/-- `init_encoder(&strm, &lzma_err)`: the status, `*lzma_err` and the encoder
state; `encoder_mt` is `lzma_stream_encoder_mt` (its return code and the state of
the fresh encoder). -/
def init_encoder {σ : Type} (c : Config) (cputhreads : Nat) (encoder_mt : lzma_mt → Nat × σ) :
    Nat × Nat × σ :=
  let r := encoder_mt (init_encoder_mt c cputhreads)
  if r.1 = LZMA_OK then (0, LZMA_OK, r.2) else (1, r.1, r.2)

/-- `init_decoder(&strm, &lzma_err)`: `decoder` is what `lzma_stream_decoder`
returns (its return code and the state of the fresh decoder). -/
def init_decoder {σ : Type} (decoder : Nat × σ) : Nat × Nat × σ :=
  if decoder.1 = LZMA_OK then (0, LZMA_OK, decoder.2) else (1, decoder.1, decoder.2)

/-! ## The streaming loop (`main.c` lines 37-45, 104-196, 266-325) -/

/-- `lzma_action`: only the two values the program uses. -/
inductive lzma_action where
  | LZMA_RUN
  | LZMA_FINISH
  deriving DecidableEq

/-- What one call of the codec does: its new internal state, the number of input
bytes it consumed, the output bytes it produced, its return code. -/
structure CodeResult (σ : Type) where
  internal : σ
  consumed : Nat
  produced : List Nat
  ret : Nat

/-- A codec (encoder or decoder) of the library: given its internal state, the
`avail_in` bytes at `next_in`, the action and `avail_out`, what the call does. -/
abbrev Coder (σ : Type) := σ → List Nat → lzma_action → Nat → CodeResult σ

/-- The fields of `lzma_stream` the loop uses. `next_in` holds the `avail_in`
bytes not consumed yet; `outbuf` holds the bytes between the start of `outbuf`
and `next_out`, so `avail_out = BUFSIZ - outbuf.length`. -/
structure lzma_stream (σ : Type) where
  next_in : List Nat
  outbuf : List Nat
  internal : σ

/-- `lzma_code(strm, action)`: the library consumes at most `avail_in` bytes and
produces at most `avail_out` bytes. -/
def lzma_code {σ : Type} (coder : Coder σ) (strm : lzma_stream σ) (action : lzma_action) :
    lzma_stream σ × Nat :=
  let avail_out := BUFSIZ - strm.outbuf.length
  let r := coder strm.internal strm.next_in action avail_out
  ({ next_in := strm.next_in.drop r.consumed,
     outbuf := strm.outbuf ++ r.produced.take avail_out,
     internal := r.internal }, r.ret)

/-- What one `fread` finds: the bytes it delivers, whether it sets the
end-of-file indicator, and the `errno` of a read error if there is one. -/
structure ReadResult where
  data : List Nat
  eof : Bool
  error : Option Int

/-- An input stream: the results of the `fread` calls to come, and the two
indicators `feof` and `ferror`. -/
structure InFile where
  reads : List ReadResult
  feof : Bool
  ferror : Bool

/-- `fread(buf, 1, size, f)`: the bytes read, the stream afterwards and `errno`.
A stream with no result left is at end of file. -/
def fread (f : InFile) (size : Nat) (errno : Int) : List Nat × InFile × Int :=
  match f.reads with
  | [] => ([], { f with feof := true }, errno)
  | r :: rs =>
    (r.data.take size,
     { reads := rs, feof := f.feof || r.eof, ferror := f.ferror || r.error.isSome },
     r.error.getD errno)

/-- The `fread` results of a regular file holding `bytes`, read `BUFSIZ` bytes at
a time: full reads, then one short read that sets the end-of-file indicator. -/
def file_reads : Nat → List Nat → List ReadResult
  | 0, _ => []
  | fuel + 1, bytes =>
    if bytes.length < BUFSIZ then [{ data := bytes, eof := true, error := none }]
    else { data := bytes.take BUFSIZ, eof := false, error := none } ::
      file_reads fuel (bytes.drop BUFSIZ)

/-- A freshly opened regular file holding `bytes`. -/
def InFile.ofBytes (bytes : List Nat) : InFile :=
  { reads := file_reads (bytes.length + 1) bytes, feof := false, ferror := false }

/-- One `fwrite` as the log keeps it: bytes requested, bytes accepted, `errno`
after the call. -/
structure WriteRecord where
  requested : Nat
  accepted : Nat
  errno : Int
  deriving DecidableEq

/-- An output stream: for each `fwrite` to come, how many bytes the sink has room
for and the `errno` of a short write; the bytes written so far; the log of the
calls. A sink with no entry left accepts everything. -/
structure OutFile where
  room : List (Nat × Int)
  written : List Nat
  log : List WriteRecord

/-- `fwrite(buf, 1, buf.length, f)`: the count returned, the stream afterwards
and `errno`. -/
def fwrite (f : OutFile) (buf : List Nat) (errno : Int) : Nat × OutFile × Int :=
  match f.room with
  | [] =>
    (buf.length,
     { f with written := f.written ++ buf,
              log := f.log ++ [{ requested := buf.length, accepted := buf.length, errno := errno }] },
     errno)
  | (room, e) :: rs =>
    let n := min buf.length room
    let errno1 := if n < buf.length then e else errno
    (n,
     { room := rs, written := f.written ++ buf.take n,
       log := f.log ++ [{ requested := buf.length, accepted := n, errno := errno1 }] },
     errno1)

/-- `print_progress(current_size, total_size)`: the values of its two `uint32_t`
parameters, to which the 64-bit arguments are converted at the call. (The
percentage it prints on `stderr` when `verbose` is set is not modelled.) -/
def print_progress (current_size total_size : Nat) : Nat × Nat :=
  (current_size % 2 ^ 32, total_size % 2 ^ 32)

/-- The state of one run of the loop of `compress` / `decompress`: the locals,
the two streams, and the globals the loop touches. `progress` lists what
`print_progress` received, call by call. -/
structure Session (σ : Type) where
  strm : lzma_stream σ
  action : lzma_action
  infile : InFile
  outfile : OutFile
  errno : Int
  current_size : Nat
  progress : List (Nat × Nat)
  lzma_err : Nat
  filein_err : Int
  fileout_err : Int

/-- The `if (ret != LZMA_OK)` block that ends an iteration: `some status` when the
function returns, `none` when the loop goes on. -/
def check_ret {σ : Type} (ret : Nat) (s : Session σ) : Option Nat × Session σ :=
  if ret ≠ LZMA_OK then
    if ret = LZMA_STREAM_END then (some 0, s)
    else (some 1, { s with lzma_err := ret })
  else (none, s)

/-- The second half of one iteration: `lzma_code`, the flush of `outbuf`, the test
of `ret`. -/
def code_and_flush {σ : Type} (coder : Coder σ) (s : Session σ) : Option Nat × Session σ :=
  let r := lzma_code coder s.strm s.action
  let ret := r.2
  let s := { s with strm := r.1 }
  if BUFSIZ - s.strm.outbuf.length = 0 ∨ ret = LZMA_STREAM_END then
    let write_size := BUFSIZ - (BUFSIZ - s.strm.outbuf.length)
    let w := fwrite s.outfile (s.strm.outbuf.take write_size) s.errno
    let s := { s with outfile := w.2.1, errno := w.2.2 }
    if w.1 ≠ write_size then (some 3, { s with fileout_err := s.errno })
    else check_ret ret { s with strm := { s.strm with outbuf := [] } }
  else check_ret ret s

/-- One iteration of the `while (true)` loop. -/
def iteration {σ : Type} (coder : Coder σ) (total_size : Nat) (s : Session σ) :
    Option Nat × Session σ :=
  if s.strm.next_in.length = 0 ∧ s.infile.feof = false then
    let r := fread s.infile BUFSIZ s.errno
    let current_size := (s.current_size + r.1.length) % 2 ^ 64
    let s := { s with strm := { s.strm with next_in := r.1 }, infile := r.2.1, errno := r.2.2,
                      current_size := current_size,
                      progress := s.progress ++ [print_progress current_size total_size] }
    if s.infile.ferror then (some 2, { s with filein_err := s.errno })
    else
      let s := if s.infile.feof then { s with action := lzma_action.LZMA_FINISH } else s
      code_and_flush coder s
  else code_and_flush coder s

/-- The `while (true)` loop, run for at most `fuel` iterations: `none` when the
loop has not returned by then. -/
def stream_loop {σ : Type} (coder : Coder σ) (total_size : Nat) :
    Nat → Session σ → Option Nat × Session σ
  | 0, s => (none, s)
  | fuel + 1, s =>
    match iteration coder total_size s with
    | (some status, s1) => (some status, s1)
    | (none, s1) => stream_loop coder total_size fuel s1

/-- The state in which `compress` and `decompress` enter their loop. -/
def Session.start {σ : Type} (internal : σ) (infile : InFile) (outfile : OutFile) (errno : Int)
    (current_size : Nat) : Session σ :=
  { strm := { next_in := [], outbuf := [], internal := internal },
    action := lzma_action.LZMA_RUN, infile := infile, outfile := outfile, errno := errno,
    current_size := current_size, progress := [],
    lzma_err := LZMA_OK, filein_err := 0, fileout_err := 0 }

/-- `compress(strm, infile, outfile, &lzma_err, &filein_err, &fileout_err)`: the
status returned (`none` when the loop is still running after `fuel` iterations)
and the final state. -/
def compress {σ : Type} (coder : Coder σ) (total_size : Nat) (fuel : Nat) (internal : σ)
    (infile : InFile) (outfile : OutFile) (errno : Int) (current_size : Nat) :
    Option Nat × Session σ :=
  stream_loop coder total_size fuel (Session.start internal infile outfile errno current_size)

/-- `decompress(strm, infile, outfile, &lzma_err, &filein_err, &fileout_err)`: its
body is the body of `compress`, statement for statement. -/
def decompress {σ : Type} (coder : Coder σ) (total_size : Nat) (fuel : Nat) (internal : σ)
    (infile : InFile) (outfile : OutFile) (errno : Int) (current_size : Nat) :
    Option Nat × Session σ :=
  stream_loop coder total_size fuel (Session.start internal infile outfile errno current_size)

/-! ## The two path runners and `main` (`main.c` lines 485-619, 657-790) -/

/-- The steps of a run whose outcome the runners test, in the order of the code. -/
inductive Stage where
  | init_header
  | init_encoder
  | init_decoder
  | open_input
  | load_offset
  | file_size
  | seek
  | open_output
  | write_header
  | codec_loop
  | close_input
  | close_output
  deriving DecidableEq

/-- What a run leaves behind: the status `main` returns (`none` when `main` does not
return: the codec loop is still running after `fuel` iterations, or the process was
killed), the steps it executed, the bytes of the output file (`none` when the
output file was never opened), and the signal that killed the process (`none` when
it was not killed). -/
structure RunResult where
  status : Option Nat
  stages : List Stage
  output : Option (List Nat)
  signal : Option Nat := none
  deriving DecidableEq

/-- What a packer run meets: its own file, the hardware, the encoder of the
library, the input file, the output file, and what its two calls with undefined
behaviour do.

`header_diag` is the outcome of `fprintf(stderr, "%s: Error init the header\n")`
(line 538), which has a `%s` and no argument: `none` when the call returns, `some
sig` when reading the missing argument kills the process with the signal `sig`.
`second_fclose` is the outcome of the `fclose` at the label `err` on a stream on
which `fclose` has failed already (the pointer is set to `NULL` only after a
successful close): `none` when the call returns, `some sig` when it kills the
process. -/
structure PackEnv (σ : Type) where
  argv0 : ExeFile
  cputhreads : Nat
  encoder_mt : lzma_mt → Nat × σ
  coder : Coder σ
  input_fopen_ok : Bool
  input_fstat : Option Nat
  input_reads : List ReadResult
  output_fopen_ok : Bool
  output_room : List (Nat × Int)
  input_fclose_ok : Bool
  output_fclose_ok : Bool
  header_diag : Option Nat
  second_fclose : Option Nat

/-- The end of a run through the label `err` after a call with undefined
behaviour: `EXIT_FAILURE` when the call returned, no status and the signal when it
killed the process. -/
def after_undefined (outcome : Option Nat) (stages : List Stage)
    (output : Option (List Nat)) : RunResult :=
  match outcome with
  | none => { status := some EXIT_FAILURE, stages := stages, output := output }
  | some sig => { status := none, stages := stages, output := output, signal := some sig }

/-- `compress_main(argc, argv)`: `opts` are the options in the order `getopt_long`
returns them, `positional` is `argc - optind`. -/
def compress_main {σ : Type} (env : PackEnv σ) (opts : List CompressOpt) (positional : Nat)
    (fuel : Nat) : RunResult :=
  match compress_options {} opts with
  | .error status => { status := some status, stages := [], output := none }
  | .ok c =>
    if positional ≠ 2 then { status := some EXIT_FAILURE, stages := [], output := none }
    else
      match init_decompress_header env.argv0 with
      | none => after_undefined env.header_diag [.init_header] none
      | some (header, header_len) =>
        let e := init_encoder c env.cputhreads env.encoder_mt
        if e.1 ≠ 0 then
          { status := some EXIT_FAILURE, stages := [.init_header, .init_encoder], output := none }
        else if !env.input_fopen_ok then
          { status := some EXIT_FAILURE, stages := [.init_header, .init_encoder, .open_input],
            output := none }
        else
          let sz := get_file_size env.input_fstat 0
          let total_size := sz.2
          if sz.1 < 0 then
            { status := some EXIT_FAILURE,
              stages := [.init_header, .init_encoder, .open_input, .file_size], output := none }
          else if !env.output_fopen_ok then
            { status := some EXIT_FAILURE,
              stages := [.init_header, .init_encoder, .open_input, .file_size, .open_output],
              output := none }
          else
            let w := fwrite { room := env.output_room, written := [], log := [] }
              (header.take header_len) 0
            if w.1 ≠ header_len then
              { status := some EXIT_FAILURE,
                stages := [.init_header, .init_encoder, .open_input, .file_size, .open_output,
                  .write_header],
                output := some w.2.1.written }
            else
              let r := compress env.coder total_size fuel e.2.2
                { reads := env.input_reads, feof := false, ferror := false } w.2.1 w.2.2 0
              let done := [Stage.init_header, .init_encoder, .open_input, .file_size,
                .open_output, .write_header, .codec_loop]
              match r.1 with
              | none => { status := none, stages := done, output := some r.2.outfile.written }
              | some ret =>
                if ret ≠ 0 then
                  { status := some EXIT_FAILURE, stages := done,
                    output := some r.2.outfile.written }
                else if !env.input_fclose_ok then
                  after_undefined env.second_fclose (done ++ [.close_input])
                    (some r.2.outfile.written)
                else if !env.output_fclose_ok then
                  after_undefined env.second_fclose (done ++ [.close_input, .close_output])
                    (some r.2.outfile.written)
                else
                  { status := some EXIT_SUCCESS, stages := done ++ [.close_input, .close_output],
                    output := some r.2.outfile.written }

/-- One option of the unpacker as `getopt_long` returns it. -/
inductive DecompressOpt where
  | verbose
  | help
  | unknown

/-- The option loop of `decompress_main`: the value of `verbose`, or the status the
process exits with. -/
def decompress_options : Int → List DecompressOpt → Except Nat Int
  | verbose, [] => .ok verbose
  | _, .verbose :: os => decompress_options 1 os
  | _, .help :: _ => .error EXIT_SUCCESS
  | _, .unknown :: _ => .error EXIT_FAILURE

/-- What an unpacker run meets: the decoder of the library, the bytes of the
constant `MY_ZIP_DATA_OFFSET` in the running image, its own file (`self_reads pos`
are the `fread` results when reading starts at byte `pos`), the output file, and
the outcome `second_fclose` of the `fclose` at the label `err` on a stream on which
`fclose` has failed already (as in `PackEnv`). -/
structure UnpackEnv (σ : Type) where
  decoder : Nat × σ
  coder : Coder σ
  self_fopen_ok : Bool
  offset_marker : List Nat
  self_fstat : Option Nat
  fseek_ok : Bool
  self_reads : Nat → List ReadResult
  output_fopen_ok : Bool
  output_room : List (Nat × Int)
  input_fclose_ok : Bool
  output_fclose_ok : Bool
  second_fclose : Option Nat

/-- `decompress_main(argc, argv)`. -/
def decompress_main {σ : Type} (env : UnpackEnv σ) (opts : List DecompressOpt)
    (positional : Nat) (fuel : Nat) : RunResult :=
  match decompress_options 0 opts with
  | .error status => { status := some status, stages := [], output := none }
  | .ok _ =>
    if positional ≠ 1 then { status := some EXIT_FAILURE, stages := [], output := none }
    else
      let d := init_decoder env.decoder
      if d.1 ≠ 0 then
        { status := some EXIT_FAILURE, stages := [.init_decoder], output := none }
      else if !env.self_fopen_ok then
        { status := some EXIT_FAILURE, stages := [.init_decoder, .open_input], output := none }
      else
        match load_offset env.offset_marker with
        | none =>
          { status := some EXIT_FAILURE, stages := [.init_decoder, .open_input, .load_offset],
            output := none }
        | some data_offset =>
          let sz := get_file_size env.self_fstat 0
          if sz.1 < 0 then
            { status := some EXIT_FAILURE,
              stages := [.init_decoder, .open_input, .load_offset, .file_size], output := none }
          else
            let total_size := (sz.2 + 2 ^ 64 - data_offset) % 2 ^ 64
            let position := if env.fseek_ok then data_offset else 0
            if !env.output_fopen_ok then
              { status := some EXIT_FAILURE,
                stages := [.init_decoder, .open_input, .load_offset, .file_size, .seek,
                  .open_output],
                output := none }
            else
              let r := decompress env.coder total_size fuel d.2.2
                { reads := env.self_reads position, feof := false, ferror := false }
                { room := env.output_room, written := [], log := [] } 0 0
              let done := [Stage.init_decoder, .open_input, .load_offset, .file_size, .seek,
                .open_output, .codec_loop]
              match r.1 with
              | none => { status := none, stages := done, output := some r.2.outfile.written }
              | some ret =>
                if ret ≠ 0 then
                  { status := some EXIT_FAILURE, stages := done,
                    output := some r.2.outfile.written }
                else if !env.input_fclose_ok then
                  after_undefined env.second_fclose (done ++ [.close_input])
                    (some r.2.outfile.written)
                else if !env.output_fclose_ok then
                  after_undefined env.second_fclose (done ++ [.close_input, .close_output])
                    (some r.2.outfile.written)
                else
                  { status := some EXIT_SUCCESS, stages := done ++ [.close_input, .close_output],
                    output := some r.2.outfile.written }

/-- `main(argc, argv)`: `mode_marker` is the bytes of the constant `MY_ZIP_MODE` in
the running image. -/
def main {σ τ : Type} (mode_marker : List Nat) (penv : PackEnv σ) (popts : List CompressOpt)
    (uenv : UnpackEnv τ) (uopts : List DecompressOpt) (positional : Nat) (fuel : Nat) :
    RunResult :=
  if load_mode mode_marker = 0 then compress_main penv popts positional fuel
  else decompress_main uenv uopts positional fuel

/-! ## Specification vocabulary -/

/-- A codec that stores: it copies its input to its output, as much as fits, and
reports the end of the stream once it was told to finish and everything fitted. -/
def copy_coder : Coder Unit := fun _ inp action avail_out =>
  { internal := (), consumed := min inp.length avail_out, produced := inp.take avail_out,
    ret := if action = lzma_action.LZMA_FINISH ∧ inp.length ≤ avail_out then LZMA_STREAM_END
           else LZMA_OK }

/-- An image of 4 GiB and 52 bytes: the two templates, then `2 ^ 32` zero bytes. -/
def image_4GiB : List Nat :=
  MY_ZIP_DATA_OFFSET ++ MY_ZIP_MODE ++ List.replicate (2 ^ 32) 0

/-- An image in which the label of the Data-Offset Marker occurs once before the
template: the label followed by twenty `x`, the template, the Mode template. -/
def image_label_first : List Nat :=
  MY_ZIP_DATA_OFFSET_LABEL ++ List.replicate 20 120 ++ MY_ZIP_DATA_OFFSET ++ MY_ZIP_MODE

/-- A small image: two bytes, the Mode template, two bytes, the Data-Offset
template, two bytes. -/
def image_small : List Nat :=
  [127, 69] ++ MY_ZIP_MODE ++ [0, 7] ++ MY_ZIP_DATA_OFFSET ++ [0, 3]

/-- A packer run in which every library call succeeds: the program file holds
`image`, the hardware has `cputhreads` threads, the encoder is `coder` in the
initial state `init`, the input file holds `input`, the output file accepts
everything. The two calls with undefined behaviour, were they reached, would kill
the process: the `fprintf` without argument with `SIGSEGV`, the second `fclose`
with `SIGABRT`. -/
def PackEnv.ok {σ : Type} (coder : Coder σ) (init : σ) (image : List Nat) (cputhreads : Nat)
    (input : List Nat) : PackEnv σ :=
  { argv0 := ExeFile.ok image, cputhreads := cputhreads,
    encoder_mt := fun _ => (LZMA_OK, init), coder := coder,
    input_fopen_ok := true, input_fstat := some input.length,
    input_reads := file_reads (input.length + 1) input,
    output_fopen_ok := true, output_room := [],
    input_fclose_ok := true, output_fclose_ok := true,
    header_diag := some SIGSEGV, second_fclose := some SIGABRT }

/-- An unpacker run in which every library call succeeds: the program file holds
`archive`, the constant `MY_ZIP_DATA_OFFSET` of the running image holds
`offset_marker`, the decoder is `coder` in the initial state `init`, the output
file accepts everything. -/
def UnpackEnv.ok {σ : Type} (coder : Coder σ) (init : σ) (archive : List Nat)
    (offset_marker : List Nat) : UnpackEnv σ :=
  { decoder := (LZMA_OK, init), coder := coder, self_fopen_ok := true,
    offset_marker := offset_marker, self_fstat := some archive.length, fseek_ok := true,
    self_reads := fun pos =>
      file_reads ((archive.drop pos).length + 1) (archive.drop pos),
    output_fopen_ok := true, output_room := [],
    input_fclose_ok := true, output_fclose_ok := true,
    second_fclose := some SIGABRT }

/-- The `fwrite` calls `new` of one run, its status and its `fileout_err`
detect short writes: either every call was accepted in full and the status is
not 3, or the last call, and only the last, was accepted short, the status is 3 and
`fileout_err` holds the `errno` of that call. -/
def ShortWriteDetected (new : List WriteRecord) (status : Option Nat) (fileout_err : Int) :
    Prop :=
  ((∀ w, w ∈ new → w.accepted = w.requested) ∧ status ≠ some 3) ∨
  (∃ pre w, new = pre ++ [w] ∧ (∀ x, x ∈ pre → x.accepted = x.requested) ∧
    w.accepted < w.requested ∧ status = some 3 ∧ fileout_err = w.errno)

/-- The archive that packing the input `[1, 2, 3]` with the program `image_small`
produces when the codec is `copy_coder`: the patched image (58 bytes), then the
payload. -/
def archive_small : List Nat :=
  ((compress_main (PackEnv.ok copy_coder () image_small 4 [1, 2, 3]) [] 2 10).output).getD []

/-- The `fread` results of an input file of `2 ^ 32` zero bytes: 524288 full reads
of `BUFSIZ` = 8192 bytes, then the read that meets the end of the file. -/
def reads_4GiB : List ReadResult :=
  List.replicate 524288 { data := List.replicate 8192 0, eof := false, error := none } ++
    [{ data := [], eof := true, error := none }]

/-- A session of `copy_coder` between two iterations, before the end of the input:
both buffers empty, the action `LZMA_RUN`, no indicator set, a sink that accepts
everything. -/
def Session.idle (s : Session Unit) : Prop :=
  s.strm.next_in = [] ∧ s.strm.outbuf = [] ∧ s.action = lzma_action.LZMA_RUN ∧
    s.infile.feof = false ∧ s.infile.ferror = false ∧ s.outfile.room = []

/-- A read that fills the buffer and meets neither the end of the file nor an error. -/
def ReadResult.full (r : ReadResult) : Prop :=
  r.data.length = BUFSIZ ∧ r.eof = false ∧ r.error = none

/-- The contract of a streaming codec, for one complete input: driven from the
state `init` over `input`, in any chunking, the codec emits `output`. There is a
relation `R s fed out` (the codec in state `s` has consumed `fed` and emitted `out`)
that holds initially and that every call preserves, where a call
* consumes at most the input offered and produces at most `avail_out` bytes,
* keeps what it has emitted a prefix of `output`,
* returns `LZMA_OK` or `LZMA_STREAM_END`, the latter only under `LZMA_FINISH`, with
  all input consumed and all of `output` emitted,
* makes progress when it returns `LZMA_OK` and had input or was told to finish.
The calls considered offer input inside `input`, the whole rest of it when the
action is `LZMA_FINISH`, and a positive `avail_out`. -/
def Transduces {σ : Type} (coder : Coder σ) (init : σ) (input output : List Nat) : Prop :=
  ∃ R : σ → List Nat → List Nat → Prop,
    R init [] [] ∧
    ∀ (s : σ) (fed out inp : List Nat) (action : lzma_action) (avail_out : Nat),
      R s fed out → fed ++ inp <+: input →
      (action = lzma_action.LZMA_FINISH → fed ++ inp = input) → 0 < avail_out →
        (coder s inp action avail_out).consumed ≤ inp.length ∧
        (coder s inp action avail_out).produced.length ≤ avail_out ∧
        R (coder s inp action avail_out).internal
          (fed ++ inp.take (coder s inp action avail_out).consumed)
          (out ++ (coder s inp action avail_out).produced) ∧
        out ++ (coder s inp action avail_out).produced <+: output ∧
        ((coder s inp action avail_out).ret = LZMA_OK ∨
          (coder s inp action avail_out).ret = LZMA_STREAM_END) ∧
        ((coder s inp action avail_out).ret = LZMA_STREAM_END →
          action = lzma_action.LZMA_FINISH ∧
          (coder s inp action avail_out).consumed = inp.length ∧
          out ++ (coder s inp action avail_out).produced = output) ∧
        ((coder s inp action avail_out).ret = LZMA_OK →
          (inp ≠ [] ∨ action = lzma_action.LZMA_FINISH) →
          0 < (coder s inp action avail_out).consumed ∨
            0 < (coder s inp action avail_out).produced.length)

/-- The invariant of the loop while it pumps `input` through a codec that emits
`output`, into a sink that held `W0` at the start: the codec has consumed `fed` and
emitted `out`; what was emitted is on the sink or in `outbuf`; what was not
consumed is in `next_in` or still in the file. -/
def LoopInv {σ : Type} (R : σ → List Nat → List Nat → Prop) (input output W0 fed out : List Nat)
    (s : Session σ) : Prop :=
  R s.strm.internal fed out ∧
  out <+: output ∧
  s.outfile.written ++ s.strm.outbuf = W0 ++ out ∧
  s.strm.outbuf.length < BUFSIZ ∧
  s.outfile.room = [] ∧
  s.infile.ferror = false ∧
  ((s.infile.feof = false ∧ s.action = lzma_action.LZMA_RUN ∧
      ∃ rest k, rest.length < k ∧ s.infile.reads = file_reads k rest ∧
        fed ++ s.strm.next_in ++ rest = input) ∨
   (s.infile.feof = true ∧ s.action = lzma_action.LZMA_FINISH ∧
      fed ++ s.strm.next_in = input))

/-- The number of bytes the `fread` calls to come will deliver. -/
def pending_bytes (reads : List ReadResult) : Nat :=
  (reads.map (fun r => min BUFSIZ r.data.length)).sum

/-- What the calls of `print_progress` have received so far is consistent with a
counter that never wrapped: the first arguments are non-decreasing, none exceeds
`current_size`, and the last one is `current_size`. -/
def ProgressInv {σ : Type} (s : Session σ) : Prop :=
  List.Pairwise (fun a b => a ≤ b) (s.progress.map Prod.fst) ∧
  (∀ x, x ∈ s.progress.map Prod.fst → x ≤ s.current_size) ∧
  (∀ p, s.progress.getLast? = some p → p.1 = s.current_size)

/-- The needle `n` occurs in `h` at index `k`: byte for byte. -/
def occursAt (h n : List Nat) (k : Nat) : Prop :=
  ∀ e, e < n.length → h[k + e]? = n[e]?

instance occursAt.decidable (h n : List Nat) (k : Nat) : Decidable (occursAt h n k) :=
  inferInstanceAs (Decidable (∀ e, e < n.length → h[k + e]? = n[e]?))

/-- The index `k` is the first one at which `n` occurs in `h`. -/
def firstAt (h n : List Nat) (k : Nat) : Prop :=
  occursAt h n k ∧ ∀ q, q < k → ¬ occursAt h n q

instance firstAt.decidable (h n : List Nat) (k : Nat) : Decidable (firstAt h n k) :=
  inferInstanceAs (Decidable (occursAt h n k ∧ ∀ q, q < k → ¬ occursAt h n q))

/-! ## Theorems -/

theorem memcmp_eq_zero_iff (n : Nat) : ∀ (a b : List Nat),
    memcmp a b n = 0 ↔ ∀ e, e < n → ∃ x, a[e]? = some x ∧ b[e]? = some x := by
  induction n with
  | zero => intro a b; simp [memcmp]
  | succ n ih =>
    intro a b
    cases a with
    | nil =>
      simp only [memcmp]
      constructor
      · intro h; omega
      · intro h; obtain ⟨x, hx, _⟩ := h 0 (by omega); simp at hx
    | cons a0 as =>
      cases b with
      | nil =>
        simp only [memcmp]
        constructor
        · intro h; omega
        · intro h; obtain ⟨x, _, hx⟩ := h 0 (by omega); simp at hx
      | cons b0 bs =>
        simp only [memcmp]
        by_cases hab : a0 = b0
        · subst hab
          simp only [if_true, ih]
          constructor
          · intro h e he
            cases e with
            | zero => exact ⟨a0, by simp, by simp⟩
            | succ e => simpa using h e (by omega)
          · intro h e he
            simpa using h (e + 1) (by omega)
        · simp only [hab, if_false]
          constructor
          · intro h; omega
          · intro h
            obtain ⟨x, h1, h2⟩ := h 0 (by omega)
            simp at h1 h2
            exact absurd (h1.trans h2.symm) hab

theorem memcmp_needle_iff (h n : List Nat) (p : Nat) :
    memcmp (h.drop p) n n.length = 0 ↔ occursAt h n p := by
  rw [memcmp_eq_zero_iff]
  unfold occursAt
  constructor
  · intro hh e he
    obtain ⟨x, h1, h2⟩ := hh e he
    rw [List.getElem?_drop] at h1
    rw [h1, h2]
  · intro hh e he
    refine ⟨n[e], ?_, ?_⟩
    · rw [List.getElem?_drop, hh e he]; exact List.getElem?_eq_getElem he
    · exact List.getElem?_eq_getElem he

theorem not_occursAt_of_overrun (h n : List Nat) (q : Nat) (hn : 0 < n.length)
    (hq : h.length < q + n.length) : ¬ occursAt h n q := by
  intro hocc
  have h1 := hocc (n.length - 1) (by omega)
  rw [List.getElem?_eq_none (by omega), List.getElem?_eq_getElem (by omega)] at h1
  simp at h1

theorem my_memmem_loop_spec (h n : List Nat) : ∀ (hl p : Nat),
    p + hl = h.length → n.length ≤ hl →
    match my_memmem_loop h n n.length p hl with
    | some k => p ≤ k ∧ occursAt h n k ∧ ∀ q, p ≤ q → q < k → ¬ occursAt h n q
    | none => ∀ q, p ≤ q → ¬ occursAt h n q := by
  intro hl
  induction hl with
  | zero =>
    intro p hp hn
    have hocc : occursAt h n p := by intro e he; omega
    simp only [my_memmem_loop, (memcmp_needle_iff h n p).2 hocc, if_true]
    exact ⟨le_refl _, hocc, fun q h1 h2 => by omega⟩
  | succ hl ih =>
    intro p hp hn
    simp only [my_memmem_loop]
    by_cases hocc : occursAt h n p
    · simp only [(memcmp_needle_iff h n p).2 hocc, if_true]
      exact ⟨le_refl _, hocc, fun q h1 h2 => by omega⟩
    · have hne : ¬ memcmp (h.drop p) n n.length = 0 := fun hh => hocc ((memcmp_needle_iff h n p).1 hh)
      simp only [hne, if_false]
      by_cases hlt : hl < n.length
      · simp only [hlt, if_true]
        intro q hq
        by_cases hqp : q = p
        · subst hqp; exact hocc
        · exact not_occursAt_of_overrun h n q (by omega) (by omega)
      · simp only [hlt, if_false]
        have := ih (p + 1) (by omega) (by omega)
        cases hres : my_memmem_loop h n n.length (p + 1) hl with
        | none =>
          rw [hres] at this
          intro q hq
          by_cases hqp : q = p
          · subst hqp; exact hocc
          · exact this q (by omega)
        | some k =>
          rw [hres] at this
          obtain ⟨h1, h2, h3⟩ := this
          refine ⟨by omega, h2, ?_⟩
          intro q hq1 hq2
          by_cases hqp : q = p
          · subst hqp; exact hocc
          · exact h3 q (by omega) hq2

theorem my_memmem_some_iff (h n : List Nat) (k : Nat) :
    my_memmem h h.length n n.length = some k ↔ firstAt h n k := by
  unfold my_memmem firstAt
  by_cases hgt : n.length > h.length
  · simp only [hgt, if_true]
    constructor
    · intro hh; cases hh
    · intro hh
      exact absurd hh.1 (not_occursAt_of_overrun h n k (by omega) (by omega))
  · simp only [hgt, if_false]
    have := my_memmem_loop_spec h n h.length 0 (by omega) (by omega)
    cases hres : my_memmem_loop h n n.length 0 h.length with
    | none =>
      rw [hres] at this
      constructor
      · intro hh; cases hh
      · intro hh; exact absurd hh.1 (this k (by omega))
    | some k0 =>
      rw [hres] at this
      obtain ⟨_, h2, h3⟩ := this
      constructor
      · intro hh
        cases hh
        exact ⟨h2, fun q hq => h3 q (by omega) hq⟩
      · intro hh
        have : k0 = k := by
          rcases Nat.lt_trichotomy k0 k with hlt | heq | hgt2
          · exact absurd h2 (hh.2 k0 hlt)
          · exact heq
          · exact absurd hh.1 (h3 k (by omega) hgt2)
        rw [this]

theorem my_memmem_none_iff (h n : List Nat) :
    my_memmem h h.length n n.length = none ↔ ∀ q, ¬ occursAt h n q := by
  constructor
  · intro hh q hq
    -- the least occurrence would be found
    have hex : ∃ k, occursAt h n k := ⟨q, hq⟩
    classical
    have hf : firstAt h n (Nat.find hex) :=
      ⟨Nat.find_spec hex, fun q1 hq1 => Nat.find_min hex hq1⟩
    rw [(my_memmem_some_iff h n _).2 hf] at hh
    cases hh
  · intro hh
    cases hres : my_memmem h h.length n n.length with
    | none => rfl
    | some k => exact absurd ((my_memmem_some_iff h n k).1 hres).1 (hh k)

theorem infix_iff_occursAt (h n : List Nat) : n <:+: h ↔ ∃ k, occursAt h n k := by
  constructor
  · rintro ⟨s, t, rfl⟩
    refine ⟨s.length, fun e he => ?_⟩
    rw [List.append_assoc, List.getElem?_append_right (by omega)]
    simp only [Nat.add_sub_cancel_left]
    rw [List.getElem?_append_left he]
  · rintro ⟨k, hk⟩
    have hp : n <+: h.drop k := by
      rw [List.isPrefix_iff]
      intro i hi
      rw [List.getElem?_drop, hk i hi]
      exact List.getElem?_eq_getElem hi
    exact List.IsInfix.trans hp.isInfix (List.drop_suffix k h).isInfix

theorem exists_firstAt_of_infix (h n : List Nat) (hin : n <:+: h) : ∃ k, firstAt h n k := by
  classical
  have hex : ∃ k, occursAt h n k := (infix_iff_occursAt h n).1 hin
  exact ⟨Nat.find hex, Nat.find_spec hex, fun q1 hq1 => Nat.find_min hex hq1⟩

/-! ### The two stores of `init_decompress_header` -/

theorem length_store (buf bs : List Nat) (p : Nat) (hp : p + bs.length ≤ buf.length) :
    (store buf p bs).length = buf.length := by
  simp only [store, List.length_append, List.length_take, List.length_drop]
  omega

theorem getElem?_store (buf bs : List Nat) (p q : Nat) (hp : p + bs.length ≤ buf.length) :
    (store buf p bs)[q]? = if p ≤ q ∧ q < p + bs.length then bs[q - p]? else buf[q]? := by
  unfold store
  have hlen : (buf.take p).length = p := by simp; omega
  by_cases h1 : q < p
  · have : ¬ (p ≤ q ∧ q < p + bs.length) := by omega
    rw [if_neg this, List.append_assoc, List.getElem?_append_left (by omega),
      List.getElem?_take_of_lt h1]
  · by_cases h2 : q < p + bs.length
    · rw [if_pos ⟨by omega, h2⟩, List.append_assoc, List.getElem?_append_right (by omega),
        List.getElem?_append_left (by omega), hlen]
    · have : ¬ (p ≤ q ∧ q < p + bs.length) := by omega
      rw [if_neg this, List.getElem?_append_right (by simp; omega), List.getElem?_drop]
      congr 1
      simp only [List.length_append, List.length_take]
      omega

theorem drop_eq_append_of_getElem? (l w : List Nat) (p : Nat)
    (hw : ∀ k, k < w.length → l[p + k]? = w[k]?) : l.drop p = w ++ l.drop (p + w.length) := by
  have hp : w <+: l.drop p := by
    rw [List.isPrefix_iff]
    intro k hk
    rw [List.getElem?_drop, hw k hk]
    exact List.getElem?_eq_getElem hk
  obtain ⟨t, ht⟩ := hp
  have : t = l.drop (p + w.length) := by
    have h2 := congrArg (List.drop w.length) ht
    rw [List.drop_left, List.drop_drop] at h2
    rw [h2, Nat.add_comm]
  rw [← this, ht]

/-! ### Decimal formatting and `strtoul` -/

theorem length_fmt_dec_le (fuel : Nat) : ∀ v, (fmt_dec fuel v).length ≤ fuel := by
  induction fuel with
  | zero => intro v; simp [fmt_dec]
  | succ f ih =>
    intro v
    simp only [fmt_dec]
    split
    · simp
    · have := ih (v / 10)
      simp only [List.length_append, List.length_singleton]
      omega

theorem fmt_dec_ne_nil (fuel v : Nat) : fmt_dec (fuel + 1) v ≠ [] := by
  simp only [fmt_dec]
  split <;> simp

theorem isdigit_of_mem_fmt_dec (fuel : Nat) : ∀ v x, x ∈ fmt_dec fuel v → 48 ≤ x ∧ x ≤ 57 := by
  induction fuel with
  | zero => intro v x hx; simp [fmt_dec] at hx
  | succ f ih =>
    intro v x hx
    simp only [fmt_dec] at hx
    split at hx
    · simp only [List.mem_singleton] at hx; omega
    · simp only [List.mem_append, List.mem_singleton] at hx
      rcases hx with hx | hx
      · exact ih _ _ hx
      · omega

theorem strtoul_digits_fmt_dec (fuel : Nat) : ∀ v acc rest, v < 10 ^ fuel →
    strtoul_digits (fmt_dec fuel v ++ rest) acc =
      strtoul_digits rest (acc * 10 ^ (fmt_dec fuel v).length + v) := by
  induction fuel with
  | zero =>
    intro v acc rest hv
    have : v = 0 := by simpa using hv
    subst this
    simp [fmt_dec]
  | succ f ih =>
    intro v acc rest hv
    simp only [fmt_dec]
    by_cases h10 : v < 10
    · have hd : isdigit (48 + v) = true := by simp [isdigit]; omega
      simp only [h10, if_true, List.singleton_append, strtoul_digits, hd, List.length_singleton,
        pow_one]
      congr 1
      omega
    · have hv10 : v / 10 < 10 ^ f := by
        rw [Nat.div_lt_iff_lt_mul (by norm_num)]
        rw [pow_succ] at hv
        exact hv
      have hd : isdigit (48 + v % 10) = true := by simp [isdigit]; omega
      simp only [h10, if_false, List.append_assoc, ih (v / 10) acc _ hv10, List.singleton_append,
        strtoul_digits, hd, if_true, List.length_append, List.length_singleton, pow_succ]
      congr 1
      have := Nat.div_add_mod v 10
      rw [← Nat.mul_assoc]
      generalize acc * 10 ^ (fmt_dec f (v / 10)).length = X
      omega

/-- Reading back with `strtoul` what `%u` printed: the value printed. -/
theorem strtoul_fmt_dec (v : Nat) (rest : List Nat) (hv : v < 2 ^ 32) :
    strtoul (fmt_dec 10 v ++ 0 :: rest) = (v, false) := by
  have hne := fmt_dec_ne_nil 9 v
  have hdig := isdigit_of_mem_fmt_dec 10 v
  cases hf : fmt_dec 10 v with
  | nil => exact absurd hf hne
  | cons c cs =>
    have hc := hdig c (by rw [hf]; simp)
    have hsp : isspace c = false := by simp [isspace]; omega
    have h45 : c ≠ 45 := by omega
    have h43 : c ≠ 43 := by omega
    have hval := strtoul_digits_fmt_dec 10 v 0 (0 :: rest) (by omega)
    rw [hf] at hval
    have hz : strtoul_digits (0 :: rest) (0 * 10 ^ (c :: cs).length + v) = v := by
      simp [strtoul_digits, isdigit]
    rw [hz] at hval
    have hle : ¬ v > ULONG_MAX := by unfold ULONG_MAX; omega
    simp only [strtoul, List.cons_append, List.dropWhile_cons, hsp, List.head?_cons,
      Option.some.injEq, h45, h43, or_self, if_false, decide_False, Bool.false_eq_true]
    rw [List.cons_append] at hval
    simp [hval, hle]

/-! ### The two markers never overlap -/

theorem occursAt_bound (h n : List Nat) (k : Nat) (hn : 0 < n.length)
    (ho : occursAt h n k) : k + n.length ≤ h.length := by
  by_contra hc
  exact not_occursAt_of_overrun h n k hn (by omega) ho

theorem markers_disjoint (h : List Nat) (i j : Nat)
    (hT : occursAt h MY_ZIP_DATA_OFFSET i) (hM : occursAt h MY_ZIP_MODE j) :
    j + 13 ≤ i ∨ i + 39 ≤ j := by
  by_contra hc
  have hTlen : MY_ZIP_DATA_OFFSET.length = 39 := rfl
  have hMlen : MY_ZIP_MODE.length = 13 := rfl
  by_cases hij : i ≤ j
  · obtain ⟨d, rfl⟩ : ∃ d, j = i + d := ⟨j - i, by omega⟩
    have h1 := hT d (by omega)
    have h2 := hM 0 (by decide)
    rw [Nat.add_zero, h1] at h2
    have hd : d = 0 :=
      (by decide : ∀ d, d < 39 → MY_ZIP_DATA_OFFSET[d]? = MY_ZIP_MODE[0]? → d = 0) d (by omega) h2
    subst hd
    have h3 := hT 7 (by decide)
    have h4 := hM 7 (by decide)
    rw [Nat.add_zero, h3] at h4
    exact absurd h4 (by decide)
  · obtain ⟨d, rfl⟩ : ∃ d, i = j + d := ⟨i - j, by omega⟩
    have h1 := hM d (by omega)
    have h2 := hT 0 (by decide)
    rw [Nat.add_zero, h1] at h2
    have hd : d = 0 ∨ d = 7 :=
      (by decide : ∀ d, d < 13 → MY_ZIP_MODE[d]? = MY_ZIP_DATA_OFFSET[0]? → d = 0 ∨ d = 7)
        d (by omega) h2
    have hd7 : d = 7 := by omega
    subst hd7
    have h3 := hT 1 (by decide)
    have h4 := hM 8 (by decide)
    rw [show j + 7 + 1 = j + 8 by omega, h4] at h3
    exact absurd h3 (by decide)

/-- Storing digits and a NUL inside the value region of the Data-Offset Marker
neither destroys nor creates an occurrence of the Mode Marker template. -/
theorem occursAt_mode_store_iff (img W : List Nat) (i j : Nat)
    (hT : occursAt img MY_ZIP_DATA_OFFSET i) (hWlen : W.length ≤ 20)
    (hW : ∀ x, x ∈ W → x = 0 ∨ (48 ≤ x ∧ x ≤ 57)) :
    occursAt (store img (i + 19) W) MY_ZIP_MODE j ↔ occursAt img MY_ZIP_MODE j := by
  have hTlen : MY_ZIP_DATA_OFFSET.length = 39 := rfl
  have hMlen : MY_ZIP_MODE.length = 13 := rfl
  have hb := occursAt_bound img _ i (by decide) hT
  have hfit : i + 19 + W.length ≤ img.length := by omega
  constructor
  · intro h1
    have key : ∀ e, e < 13 → (i + 19 ≤ j + e ∧ j + e < i + 19 + W.length) → e = 12 := by
      intro e he hin
      have h2 := h1 e (by omega)
      rw [getElem?_store _ _ _ _ hfit, if_pos hin] at h2
      have hlt : j + e - (i + 19) < W.length := by omega
      rw [List.getElem?_eq_getElem hlt] at h2
      have hw := hW _ (List.getElem_mem hlt)
      have hm : MY_ZIP_MODE[e]?.getD 1 = W[j + e - (i + 19)] := by rw [← h2]; rfl
      rw [← hm] at hw
      exact (by decide : ∀ e, e < 13 →
        (MY_ZIP_MODE[e]?.getD 1 = 0 ∨ (48 ≤ MY_ZIP_MODE[e]?.getD 1 ∧ MY_ZIP_MODE[e]?.getD 1 ≤ 57))
          → e = 12) e he hw
    have clear : ∀ e, e < 13 → ¬ (i + 19 ≤ j + e ∧ j + e < i + 19 + W.length) := by
      intro e he hin
      have he12 := key e he hin
      subst he12
      have h11 : ¬ (i + 19 ≤ j + 11 ∧ j + 11 < i + 19 + W.length) := by
        intro h; have := key 11 (by omega) h; omega
      have hj : j = i + 7 := by omega
      subst hj
      have h2 := h1 0 (by decide)
      rw [getElem?_store _ _ _ _ hfit, if_neg (by omega)] at h2
      have h3 := hT 7 (by decide)
      rw [Nat.add_zero, h3] at h2
      exact absurd h2 (by decide)
    intro e he
    have h2 := h1 e he
    rw [getElem?_store _ _ _ _ hfit, if_neg (clear e (by omega))] at h2
    exact h2
  · intro hM e he
    have hd := markers_disjoint img i j hT hM
    rw [getElem?_store _ _ _ _ hfit, if_neg (by omega)]
    exact hM e he

theorem firstAt_mode_store_iff (img W : List Nat) (i j : Nat)
    (hT : occursAt img MY_ZIP_DATA_OFFSET i) (hWlen : W.length ≤ 20)
    (hW : ∀ x, x ∈ W → x = 0 ∨ (48 ≤ x ∧ x ≤ 57)) :
    firstAt (store img (i + 19) W) MY_ZIP_MODE j ↔ firstAt img MY_ZIP_MODE j := by
  unfold firstAt
  rw [occursAt_mode_store_iff img W i j hT hWlen hW]
  constructor
  · rintro ⟨h1, h2⟩
    exact ⟨h1, fun q hq hocc => h2 q hq ((occursAt_mode_store_iff img W i q hT hWlen hW).2 hocc)⟩
  · rintro ⟨h1, h2⟩
    exact ⟨h1, fun q hq hocc => h2 q hq ((occursAt_mode_store_iff img W i q hT hWlen hW).1 hocc)⟩

/-- What `sprintf(p, "%u", file_size)` stores: at most ten digits and the NUL. -/
theorem sprintf_bytes_spec (v : Nat) :
    (fmt_dec 10 v ++ [0]).length ≤ 11 ∧
      ∀ x, x ∈ fmt_dec 10 v ++ [0] → x = 0 ∨ (48 ≤ x ∧ x ≤ 57) := by
  constructor
  · have := length_fmt_dec_le 10 v
    simp only [List.length_append, List.length_singleton]
    omega
  · intro x hx
    simp only [List.mem_append, List.mem_singleton] at hx
    rcases hx with hx | hx
    · exact Or.inr (isdigit_of_mem_fmt_dec 10 v x hx)
    · exact Or.inl hx

/-- The result of `init_decompress_header` on a readable file whose first
Data-Offset template is at `i` and whose first Mode template is at `j`. -/
theorem init_decompress_header_ok (img : List Nat) (i j : Nat)
    (hi : firstAt img MY_ZIP_DATA_OFFSET i) (hj : firstAt img MY_ZIP_MODE j) :
    init_decompress_header (ExeFile.ok img) =
      some ((sprintf_u img (i + 19) img.length).set (j + 12) 49, img.length % 2 ^ 32) := by
  have hsp := sprintf_bytes_spec (img.length % 2 ^ 32)
  have hb := occursAt_bound img _ i (by decide) hi.1
  have hTlen : MY_ZIP_DATA_OFFSET.length = 39 := rfl
  have hlen : (sprintf_u img (i + 19) img.length).length = img.length :=
    length_store _ _ _ (by omega)
  have h1 : my_memmem img img.length MY_ZIP_DATA_OFFSET MY_ZIP_DATA_OFFSET_LEN = some i :=
    (my_memmem_some_iff img MY_ZIP_DATA_OFFSET i).2 hi
  have h2 : my_memmem (sprintf_u img (i + 19) img.length) img.length MY_ZIP_MODE
      MY_ZIP_MODE_LEN = some j := by
    have := (my_memmem_some_iff (sprintf_u img (i + 19) img.length) MY_ZIP_MODE j).2
      ((firstAt_mode_store_iff img _ i j hi.1 (by omega) hsp.2).2 hj)
    rw [hlen] at this
    exact this
  simp only [init_decompress_header, ExeFile.ok, get_file_size, Bool.not_true,
    Bool.false_eq_true, if_false, List.take_length, List.length_take, Nat.min_self,
    Nat.sub_self, List.replicate_zero, List.append_nil, h1, MY_ZIP_DATA_OFFSET_HEADER_LEN,
    h2, MY_ZIP_MODE_HEADER_LEN]
  simp

/-- The bytes of the patched header, index by index. -/
theorem getElem?_patched (img : List Nat) (i j q : Nat)
    (hi : occursAt img MY_ZIP_DATA_OFFSET i) (hj : occursAt img MY_ZIP_MODE j) :
    ((sprintf_u img (i + 19) img.length).set (j + 12) 49)[q]? =
      if q = j + 12 then some 49
      else if i + 19 ≤ q ∧ q < i + 19 + (fmt_dec 10 (img.length % 2 ^ 32) ++ [0]).length then
        (fmt_dec 10 (img.length % 2 ^ 32) ++ [0])[q - (i + 19)]?
      else img[q]? := by
  have hsp := sprintf_bytes_spec (img.length % 2 ^ 32)
  have hb := occursAt_bound img _ i (by decide) hi
  have hbj := occursAt_bound img _ j (by decide) hj
  have hTlen : MY_ZIP_DATA_OFFSET.length = 39 := rfl
  have hMlen : MY_ZIP_MODE.length = 13 := rfl
  have hlen : (sprintf_u img (i + 19) img.length).length = img.length :=
    length_store _ _ _ (by omega)
  rw [List.getElem?_set]
  by_cases hq : j + 12 = q
  · subst hq
    simp only [if_true]
    rw [if_pos (by omega)]
  · rw [if_neg hq, if_neg (by omega)]
    exact getElem?_store _ _ _ _ (by omega)

/-- What `load_offset` reads in the patched header, at the marker that was patched. -/
theorem load_offset_patched (img : List Nat) (i j : Nat)
    (hi : occursAt img MY_ZIP_DATA_OFFSET i) (hj : occursAt img MY_ZIP_MODE j) :
    load_offset (((sprintf_u img (i + 19) img.length).set (j + 12) 49).drop i) =
      some (img.length % 2 ^ 32) := by
  have hd := markers_disjoint img i j hi hj
  have hsp := sprintf_bytes_spec (img.length % 2 ^ 32)
  have hdrop := drop_eq_append_of_getElem? ((sprintf_u img (i + 19) img.length).set (j + 12) 49)
    (fmt_dec 10 (img.length % 2 ^ 32) ++ [0]) (i + 19) (by
      intro k hk
      rw [getElem?_patched img i j _ hi hj, if_neg (by omega), if_pos (by omega)]
      congr 1
      omega)
  have hlt : img.length % 2 ^ 32 < 2 ^ 32 := Nat.mod_lt _ (by norm_num)
  unfold load_offset
  rw [List.drop_drop, show i + MY_ZIP_DATA_OFFSET_HEADER_LEN = i + 19 from rfl, hdrop, List.append_assoc, List.singleton_append,
    strtoul_fmt_dec _ _ hlt]
  simp [Nat.mod_eq_of_lt hlt]

theorem label_occursAt_of_template (h : List Nat) (k : Nat)
    (hk : occursAt h MY_ZIP_DATA_OFFSET k) : occursAt h MY_ZIP_DATA_OFFSET_LABEL k := by
  intro e he
  have he19 : e < 19 := he
  rw [hk e (by have : MY_ZIP_DATA_OFFSET.length = 39 := rfl; omega)]
  unfold MY_ZIP_DATA_OFFSET_LABEL MY_ZIP_DATA_OFFSET_HEADER_LEN
  rw [List.getElem?_take_of_lt he19]

theorem init_decompress_header_of_infix (img : List Nat)
    (hT : MY_ZIP_DATA_OFFSET <:+: img) (hM : MY_ZIP_MODE <:+: img) :
    ∃ i j, firstAt img MY_ZIP_DATA_OFFSET i ∧ firstAt img MY_ZIP_MODE j ∧
      init_decompress_header (ExeFile.ok img) =
        some ((sprintf_u img (i + 19) img.length).set (j + 12) 49, img.length % 2 ^ 32) := by
  obtain ⟨i, hi⟩ := exists_firstAt_of_infix img _ hT
  obtain ⟨j, hj⟩ := exists_firstAt_of_infix img _ hM
  exact ⟨i, j, hi, hj, init_decompress_header_ok img i j hi hj⟩

theorem init_decompress_header_none (f : ExeFile) (hsize : f.fstat = some f.contents.length)
    (hno : ¬ MY_ZIP_DATA_OFFSET_LABEL <:+: f.contents) :
    my_memmem f.contents f.contents.length MY_ZIP_DATA_OFFSET MY_ZIP_DATA_OFFSET_LEN = none ∧
      init_decompress_header f = none := by
  have h1 : my_memmem f.contents f.contents.length MY_ZIP_DATA_OFFSET MY_ZIP_DATA_OFFSET_LEN
      = none := by
    refine (my_memmem_none_iff f.contents MY_ZIP_DATA_OFFSET).2 ?_
    intro q hq
    exact hno ((infix_iff_occursAt _ _).2 ⟨q, label_occursAt_of_template _ q hq⟩)
  refine ⟨h1, ?_⟩
  simp only [init_decompress_header, hsize, get_file_size, List.take_length, List.length_take,
    Nat.min_self, Nat.sub_self, List.replicate_zero, List.append_nil, h1]
  simp

/-! ### Thread count -/

/-- With a thread option on the command line the count handed to the encoder is at
most `MAX_COMPRESS_THREAD` and at most the hardware count (1 when undetectable). -/
theorem threads_le_of_thread_option (c0 : Config) (val : Int) (cputhreads : Nat) (c : Config)
    (hc : compress_option c0 (CompressOpt.thread val) = .ok c) :
    ((init_encoder_mt c cputhreads).threads : Int) ≤ MAX_COMPRESS_THREAD ∧
      (init_encoder_mt c cputhreads).threads ≤ max cputhreads 1 := by
  simp only [compress_option, Except.ok.injEq] at hc
  subst hc
  simp only [init_encoder_mt, to_uint32, MAX_COMPRESS_THREAD]
  constructor <;> split_ifs <;> omega

/-- Without a thread option the count handed to the encoder is the hardware count
(1 when undetectable): `thread_cnt` is -1, which compares as `UINT32_MAX`. -/
theorem threads_of_default (cputhreads : Nat) (hc : cputhreads < 2 ^ 32) :
    (init_encoder_mt {} cputhreads).threads = max cputhreads 1 := by
  simp only [init_encoder_mt, to_uint32]
  split_ifs <;> omega

/-! ### Short writes -/

theorem fwrite_spec (f : OutFile) (buf : List Nat) (errno : Int) :
    (fwrite f buf errno).1 ≤ buf.length ∧
    (fwrite f buf errno).2.1.log =
      f.log ++ [{ requested := buf.length, accepted := (fwrite f buf errno).1,
                  errno := (fwrite f buf errno).2.2 }] ∧
    (fwrite f buf errno).2.1.written = f.written ++ buf.take (fwrite f buf errno).1 := by
  unfold fwrite
  cases hroom : f.room with
  | nil => simp
  | cons r rs =>
    obtain ⟨room, e⟩ := r
    simp only [true_and, and_true]
    exact Nat.min_le_left _ _

theorem check_ret_spec {σ : Type} (ret : Nat) (s : Session σ) :
    (check_ret ret s).2.outfile = s.outfile ∧ (check_ret ret s).2.fileout_err = s.fileout_err ∧
      (check_ret ret s).1 ≠ some 3 := by
  unfold check_ret
  split_ifs <;> simp

/-- One flush step adds at most one record to the log, and returns 3 exactly when
that record is a short write. -/
theorem code_and_flush_log {σ : Type} (coder : Coder σ) (s : Session σ) :
    ((code_and_flush coder s).2.outfile.log = s.outfile.log ∧
        (code_and_flush coder s).1 ≠ some 3) ∨
    (∃ w, (code_and_flush coder s).2.outfile.log = s.outfile.log ++ [w] ∧
        w.accepted = w.requested ∧ (code_and_flush coder s).1 ≠ some 3) ∨
    (∃ w, (code_and_flush coder s).2.outfile.log = s.outfile.log ++ [w] ∧
        w.accepted < w.requested ∧ (code_and_flush coder s).1 = some 3 ∧
        (code_and_flush coder s).2.fileout_err = w.errno) := by
  unfold code_and_flush
  simp only []
  generalize lzma_code coder s.strm s.action = r
  have hw := fwrite_spec s.outfile
    (List.take (BUFSIZ - (BUFSIZ - r.1.outbuf.length)) r.1.outbuf) s.errno
  generalize fwrite s.outfile
    (List.take (BUFSIZ - (BUFSIZ - r.1.outbuf.length)) r.1.outbuf) s.errno = w at hw ⊢
  have hreq : (List.take (BUFSIZ - (BUFSIZ - r.1.outbuf.length)) r.1.outbuf).length =
      BUFSIZ - (BUFSIZ - r.1.outbuf.length) := by
    rw [List.length_take]; omega
  rw [hreq] at hw
  split_ifs with hflush hshort
  · right; right
    refine ⟨⟨BUFSIZ - (BUFSIZ - r.1.outbuf.length), w.1, w.2.2⟩, hw.2.1, ?_, rfl, rfl⟩
    show w.1 < BUFSIZ - (BUFSIZ - r.1.outbuf.length)
    omega
  · right; left
    refine ⟨⟨BUFSIZ - (BUFSIZ - r.1.outbuf.length), w.1, w.2.2⟩, ?_, ?_,
      (check_ret_spec _ _).2.2⟩
    · rw [(check_ret_spec _ _).1]; exact hw.2.1
    · show w.1 = BUFSIZ - (BUFSIZ - r.1.outbuf.length)
      omega
  · left
    exact ⟨by rw [(check_ret_spec _ _).1], (check_ret_spec _ _).2.2⟩

theorem code_and_flush_detects {σ : Type} (coder : Coder σ) (s : Session σ) :
    ∃ new, (code_and_flush coder s).2.outfile.log = s.outfile.log ++ new ∧
      ShortWriteDetected new (code_and_flush coder s).1 (code_and_flush coder s).2.fileout_err := by
  rcases code_and_flush_log coder s with ⟨h1, h2⟩ | ⟨w, h1, h2, h3⟩ | ⟨w, h1, h2, h3, h4⟩
  · exact ⟨[], by simpa using h1, Or.inl ⟨by simp, h2⟩⟩
  · refine ⟨[w], h1, Or.inl ⟨?_, h3⟩⟩
    intro x hx
    simp only [List.mem_singleton] at hx
    rw [hx]; exact h2
  · exact ⟨[w], h1, Or.inr ⟨[], w, rfl, by simp, h2, h3, h4⟩⟩

theorem iteration_detects {σ : Type} (coder : Coder σ) (total_size : Nat) (s : Session σ) :
    ∃ new, (iteration coder total_size s).2.outfile.log = s.outfile.log ++ new ∧
      ShortWriteDetected new (iteration coder total_size s).1
        (iteration coder total_size s).2.fileout_err := by
  unfold iteration
  simp only []
  split_ifs with hread herr heof
  · exact ⟨[], by simp, Or.inl ⟨by simp, by simp⟩⟩
  · exact code_and_flush_detects coder _
  · exact code_and_flush_detects coder _
  · exact code_and_flush_detects coder s

theorem ShortWriteDetected.append (l1 new : List WriteRecord) (st : Option Nat) (e : Int)
    (h1 : ∀ w, w ∈ l1 → w.accepted = w.requested) (h2 : ShortWriteDetected new st e) :
    ShortWriteDetected (l1 ++ new) st e := by
  rcases h2 with ⟨hfull, hst⟩ | ⟨pre, w, rfl, hpre, hw, hst, he⟩
  · left
    refine ⟨?_, hst⟩
    intro w hw
    rcases List.mem_append.1 hw with h | h
    · exact h1 w h
    · exact hfull w h
  · right
    refine ⟨l1 ++ pre, w, by simp, ?_, hw, hst, he⟩
    intro x hx
    rcases List.mem_append.1 hx with h | h
    · exact h1 x h
    · exact hpre x h

theorem stream_loop_detects {σ : Type} (coder : Coder σ) (total_size : Nat) :
    ∀ (fuel : Nat) (s : Session σ),
      ∃ new, (stream_loop coder total_size fuel s).2.outfile.log = s.outfile.log ++ new ∧
        ShortWriteDetected new (stream_loop coder total_size fuel s).1
          (stream_loop coder total_size fuel s).2.fileout_err := by
  intro fuel
  induction fuel with
  | zero =>
    intro s
    exact ⟨[], by simp [stream_loop], Or.inl ⟨by simp, by simp [stream_loop]⟩⟩
  | succ fuel ih =>
    intro s
    obtain ⟨l1, hl1, hd1⟩ := iteration_detects coder total_size s
    simp only [stream_loop]
    cases hit : iteration coder total_size s with
    | mk st s1 =>
      rw [hit] at hl1 hd1
      cases st with
      | some status => exact ⟨l1, hl1, hd1⟩
      | none =>
        simp only []
        obtain ⟨new, hnew, hd⟩ := ih s1
        refine ⟨l1 ++ new, ?_, ?_⟩
        · rw [hnew, hl1, List.append_assoc]
        · refine ShortWriteDetected.append l1 new _ _ ?_ hd
          rcases hd1 with ⟨hfull, _⟩ | ⟨_, _, _, _, _, hst, _⟩
          · exact hfull
          · cases hst

/-- A run that meets a short write: the sink takes 2 of the 3 bytes of the only
flush, with `errno` 28; `compress` returns 3 and records 28. -/
theorem short_write_example :
    (compress copy_coder 3 10 () (InFile.ofBytes [1, 2, 3])
        { room := [(2, 28)], written := [], log := [] } 0 0).1 = some 3 ∧
    (compress copy_coder 3 10 () (InFile.ofBytes [1, 2, 3])
        { room := [(2, 28)], written := [], log := [] } 0 0).2.fileout_err = 28 ∧
    (compress copy_coder 3 10 () (InFile.ofBytes [1, 2, 3])
        { room := [(2, 28)], written := [], log := [] } 0 0).2.outfile.log =
      [{ requested := 3, accepted := 2, errno := 28 }] := by
  decide

/-! ### Progress -/

/-- One iteration of `copy_coder` on a full read: the chunk goes through, the
counter advances by `BUFSIZ`, `print_progress` is called once. -/
theorem iteration_full_read (total_size : Nat) (s : Session Unit) (r : ReadResult)
    (rest : List ReadResult) (hs : s.idle) (hreads : s.infile.reads = r :: rest)
    (hr : r.full) (hcs : s.current_size + BUFSIZ < 2 ^ 64) :
    ∃ s1, iteration copy_coder total_size s = (none, s1) ∧ s1.idle ∧
      s1.infile.reads = rest ∧ s1.current_size = s.current_size + BUFSIZ ∧
      s1.progress = s.progress ++ [print_progress (s.current_size + BUFSIZ) total_size] := by
  obtain ⟨h1, h2, h3, h4, h5, h6⟩ := hs
  obtain ⟨hr1, hr2, hr3⟩ := hr
  have hB : 0 < BUFSIZ := by decide
  have htake : List.take BUFSIZ r.data = r.data := List.take_of_length_le (by omega)
  have hdrop : List.drop BUFSIZ r.data = [] := List.drop_of_length_le (by omega)
  have hit : iteration copy_coder total_size s =
      (none,
       { strm := { next_in := [], outbuf := [], internal := () },
         action := lzma_action.LZMA_RUN,
         infile := { reads := rest, feof := false, ferror := false },
         outfile := { room := [], written := s.outfile.written ++ r.data,
                      log := s.outfile.log ++
                        [{ requested := BUFSIZ, accepted := BUFSIZ, errno := s.errno }] },
         errno := s.errno, current_size := s.current_size + BUFSIZ,
         progress := s.progress ++ [print_progress (s.current_size + BUFSIZ) total_size],
         lzma_err := s.lzma_err, filein_err := s.filein_err, fileout_err := s.fileout_err }) := by
    have hcs1 : s.current_size + BUFSIZ < 18446744073709551616 := hcs
    have hcs2 : (s.current_size + BUFSIZ) % 18446744073709551616 = s.current_size + BUFSIZ :=
      Nat.mod_eq_of_lt hcs1
    unfold iteration
    simp [h1, h4, h5, hreads, fread, hr2, hr3, htake, hr1, hcs1, hcs2, code_and_flush,
      lzma_code, h2, h3, copy_coder, hdrop, fwrite, h6, check_ret, LZMA_OK]
  exact ⟨_, hit, by simp [Session.idle], rfl, rfl, rfl⟩

/-- The iteration of `copy_coder` that meets the end of the input: one more call
of `print_progress`, with the counter unchanged, and the status 0. -/
theorem iteration_last_read (total_size : Nat) (s : Session Unit) (r : ReadResult)
    (rest : List ReadResult) (hs : s.idle) (hreads : s.infile.reads = r :: rest)
    (hr1 : r.data = []) (hr2 : r.eof = true) (hr3 : r.error = none)
    (hcs : s.current_size < 2 ^ 64) :
    ∃ s1, iteration copy_coder total_size s = (some 0, s1) ∧
      s1.current_size = s.current_size ∧
      s1.progress = s.progress ++ [print_progress s.current_size total_size] := by
  obtain ⟨h1, h2, h3, h4, h5, h6⟩ := hs
  have hit : iteration copy_coder total_size s =
      (some 0,
       { strm := { next_in := [], outbuf := [], internal := () },
         action := lzma_action.LZMA_FINISH,
         infile := { reads := rest, feof := true, ferror := false },
         outfile := { room := [], written := s.outfile.written,
                      log := s.outfile.log ++
                        [{ requested := 0, accepted := 0, errno := s.errno }] },
         errno := s.errno, current_size := s.current_size,
         progress := s.progress ++ [print_progress s.current_size total_size],
         lzma_err := s.lzma_err, filein_err := s.filein_err, fileout_err := s.fileout_err }) := by
    have hcs1 : s.current_size < 18446744073709551616 := hcs
    have hcs2 : s.current_size % 18446744073709551616 = s.current_size :=
      Nat.mod_eq_of_lt hcs1
    unfold iteration
    simp [h1, h4, h5, hreads, fread, hr1, hr2, hr3, hcs1, hcs2, code_and_flush,
      lzma_code, h2, h3, copy_coder, fwrite, h6, check_ret, LZMA_OK, LZMA_STREAM_END]
  exact ⟨_, hit, rfl, rfl⟩

/-- A run of `copy_coder` over full reads: one iteration per read, and the calls of
`print_progress` receive the running byte count. -/
theorem stream_loop_full_reads (total_size : Nat) :
    ∀ (fulls rest : List ReadResult) (k : Nat) (s : Session Unit), s.idle →
      s.infile.reads = fulls ++ rest → (∀ r, r ∈ fulls → r.full) →
      s.current_size + fulls.length * BUFSIZ < 2 ^ 64 →
      ∃ s1, stream_loop copy_coder total_size (fulls.length + k) s =
          stream_loop copy_coder total_size k s1 ∧ s1.idle ∧ s1.infile.reads = rest ∧
        s1.current_size = s.current_size + fulls.length * BUFSIZ ∧
        s1.progress = s.progress ++ (List.range fulls.length).map
          (fun t => print_progress (s.current_size + (t + 1) * BUFSIZ) total_size) := by
  intro fulls
  induction fulls with
  | nil =>
    intro rest k s hs hreads _ _
    exact ⟨s, by simp, hs, by simpa using hreads, by simp, by simp⟩
  | cons r fs ih =>
    intro rest k s hs hreads hfull hcs
    have hlen : (r :: fs).length = fs.length + 1 := rfl
    rw [hlen] at hcs
    have hmul : (fs.length + 1) * BUFSIZ = fs.length * BUFSIZ + BUFSIZ := Nat.succ_mul _ _
    obtain ⟨s1, hit, hidle, hrd, hcur, hprog⟩ :=
      iteration_full_read total_size s r (fs ++ rest) hs (by simpa using hreads)
        (hfull r (by simp)) (by omega)
    obtain ⟨s2, hloop, hidle2, hrd2, hcur2, hprog2⟩ :=
      ih rest k s1 hidle hrd (fun x hx => hfull x (by simp [hx])) (by rw [hcur]; omega)
    refine ⟨s2, ?_, hidle2, hrd2, ?_, ?_⟩
    · rw [hlen, show fs.length + 1 + k = (fs.length + k) + 1 by omega]
      simp only [stream_loop, hit]
      exact hloop
    · rw [hcur2, hcur, hlen]; omega
    · rw [hprog2, hprog, hcur, hlen, List.range_succ_eq_map, List.map_cons, List.map_map,
        List.append_assoc, List.singleton_append]
      congr 2
      · simp
        intro t _
        congr 1
        rw [Nat.succ_mul (t + 1) BUFSIZ]
        omega

/-! ### Round trip -/

theorem fwrite_unbounded (f : OutFile) (buf : List Nat) (errno : Int) (hroom : f.room = []) :
    (fwrite f buf errno).1 = buf.length ∧ (fwrite f buf errno).2.1.room = [] ∧
      (fwrite f buf errno).2.1.written = f.written ++ buf := by
  unfold fwrite
  rw [hroom]
  exact ⟨rfl, rfl, rfl⟩

/-- The second half of an iteration under the invariant: either the run ends with
status 0 and the sink holds all of `output`, or the invariant holds again and the
codec has consumed or emitted at least one more byte. -/
theorem code_and_flush_inv {σ : Type} (coder : Coder σ) (R : σ → List Nat → List Nat → Prop)
    (input output W0 fed out : List Nat) (s : Session σ)
    (hstep : ∀ (s : σ) (fed out inp : List Nat) (action : lzma_action) (avail_out : Nat),
      R s fed out → fed ++ inp <+: input →
      (action = lzma_action.LZMA_FINISH → fed ++ inp = input) → 0 < avail_out →
        (coder s inp action avail_out).consumed ≤ inp.length ∧
        (coder s inp action avail_out).produced.length ≤ avail_out ∧
        R (coder s inp action avail_out).internal
          (fed ++ inp.take (coder s inp action avail_out).consumed)
          (out ++ (coder s inp action avail_out).produced) ∧
        out ++ (coder s inp action avail_out).produced <+: output ∧
        ((coder s inp action avail_out).ret = LZMA_OK ∨
          (coder s inp action avail_out).ret = LZMA_STREAM_END) ∧
        ((coder s inp action avail_out).ret = LZMA_STREAM_END →
          action = lzma_action.LZMA_FINISH ∧
          (coder s inp action avail_out).consumed = inp.length ∧
          out ++ (coder s inp action avail_out).produced = output) ∧
        ((coder s inp action avail_out).ret = LZMA_OK →
          (inp ≠ [] ∨ action = lzma_action.LZMA_FINISH) →
          0 < (coder s inp action avail_out).consumed ∨
            0 < (coder s inp action avail_out).produced.length))
    (hinv : LoopInv R input output W0 fed out s)
    (hcall : s.strm.next_in ≠ [] ∨ s.action = lzma_action.LZMA_FINISH) :
    ((code_and_flush coder s).1 = some 0 ∧
      (code_and_flush coder s).2.outfile.written = W0 ++ output) ∨
    (∃ fed1 out1, (code_and_flush coder s).1 = none ∧
      LoopInv R input output W0 fed1 out1 (code_and_flush coder s).2 ∧
      (input.length - fed1.length) + (output.length - out1.length) <
        (input.length - fed.length) + (output.length - out.length)) := by
  obtain ⟨hR, hpre, hW, hlen, hroom, hferr, hbr⟩ := hinv
  have havail : 0 < BUFSIZ - s.strm.outbuf.length := by omega
  have hprefix : fed ++ s.strm.next_in <+: input := by
    rcases hbr with ⟨_, _, rest, k, _, _, h⟩ | ⟨_, _, h⟩
    · exact ⟨rest, h⟩
    · exact ⟨[], by simpa using h⟩
  have hfin : s.action = lzma_action.LZMA_FINISH → fed ++ s.strm.next_in = input := by
    intro ha
    rcases hbr with ⟨_, hrun, _⟩ | ⟨_, _, h⟩
    · rw [hrun] at ha; cases ha
    · exact h
  obtain ⟨c1, c2, c3, c4, c5, c6, c7⟩ :=
    hstep s.strm.internal fed out s.strm.next_in s.action _ hR hprefix hfin havail
  have c7 := fun h => c7 h hcall
  generalize hr : coder s.strm.internal s.strm.next_in s.action
    (BUFSIZ - s.strm.outbuf.length) = r at c1 c2 c3 c4 c5 c6 c7
  have hcode : lzma_code coder s.strm s.action =
      ({ next_in := s.strm.next_in.drop r.consumed, outbuf := s.strm.outbuf ++ r.produced,
         internal := r.internal }, r.ret) := by
    simp only [lzma_code, hr, List.take_of_length_le c2]
  have hlen1 : (s.strm.outbuf ++ r.produced).length ≤ BUFSIZ := by
    rw [List.length_append]; omega
  have hws : BUFSIZ - (BUFSIZ - (s.strm.outbuf ++ r.produced).length) =
      (s.strm.outbuf ++ r.produced).length := by omega
  have hfw := fwrite_unbounded s.outfile (s.strm.outbuf ++ r.produced) s.errno hroom
  have hfedlen : (fed ++ s.strm.next_in).length ≤ input.length := hprefix.length_le
  have houtlen : (out ++ r.produced).length ≤ output.length := c4.length_le
  rw [List.length_append] at hfedlen houtlen
  rcases c5 with hok | hend
  · -- the codec goes on
    right
    have hprog := c7 hok
    have hne : ¬ r.ret = LZMA_STREAM_END := by rw [hok]; decide
    have hne1 : ¬ LZMA_OK = LZMA_STREAM_END := by decide
    have hbr1 : (s.infile.feof = false ∧ s.action = lzma_action.LZMA_RUN ∧
        ∃ rest k, rest.length < k ∧ s.infile.reads = file_reads k rest ∧
          (fed ++ s.strm.next_in.take r.consumed) ++ s.strm.next_in.drop r.consumed ++ rest
            = input) ∨
        (s.infile.feof = true ∧ s.action = lzma_action.LZMA_FINISH ∧
          (fed ++ s.strm.next_in.take r.consumed) ++ s.strm.next_in.drop r.consumed
            = input) := by
      rcases hbr with ⟨h1, h2, rest, k, h3, h4, h5⟩ | ⟨h1, h2, h3⟩
      · exact Or.inl ⟨h1, h2, rest, k, h3, h4, by
          rw [List.append_assoc fed, List.take_append_drop]; exact h5⟩
      · exact Or.inr ⟨h1, h2, by rw [List.append_assoc fed, List.take_append_drop]; exact h3⟩
    refine ⟨fed ++ s.strm.next_in.take r.consumed, out ++ r.produced, ?_, ?_, ?_⟩
    · unfold code_and_flush
      simp only [hcode, hws, List.take_length, hfw.1, ne_eq, not_true_eq_false, if_false, hne,
        or_false, check_ret, hok]
      split_ifs <;> rfl
    · unfold code_and_flush
      simp only [hcode, hws, List.take_length, hfw.1, ne_eq, not_true_eq_false, if_false, hne,
        or_false, check_ret, hok]
      by_cases hfull : BUFSIZ - (s.strm.outbuf ++ r.produced).length = 0
      · simp only [hfull, true_or, if_true]
        refine ⟨c3, c4, ?_, by show ([] : List Nat).length < BUFSIZ; decide, hfw.2.1, hferr,
          hbr1⟩
        show (fwrite s.outfile (s.strm.outbuf ++ r.produced) s.errno).2.1.written ++ [] = _
        rw [hfw.2.2, List.append_nil, ← List.append_assoc, hW, List.append_assoc]
      · simp only [hfull, hne1, or_self, if_false]
        refine ⟨c3, c4, ?_, by show (s.strm.outbuf ++ r.produced).length < BUFSIZ; omega,
          hroom, hferr, hbr1⟩
        show s.outfile.written ++ (s.strm.outbuf ++ r.produced) = _
        rw [← List.append_assoc, hW, List.append_assoc]
    · rw [List.length_append, List.length_append, List.length_take]
      have : min r.consumed s.strm.next_in.length = r.consumed := Nat.min_eq_left c1
      rw [this]
      omega
  · -- the codec reports the end of the stream
    left
    obtain ⟨_, _, hall⟩ := c6 hend
    unfold code_and_flush
    simp only [hcode, hws, List.take_length, hfw.1, ne_eq, not_true_eq_false, if_false, hend,
      or_true, if_true, check_ret]
    refine ⟨by simp [LZMA_STREAM_END, LZMA_OK], ?_⟩
    have : (LZMA_STREAM_END ≠ LZMA_OK) := by decide
    simp only [LZMA_STREAM_END, LZMA_OK] at this ⊢
    simp only [ne_eq, this, not_false_eq_true, if_true]
    show (fwrite s.outfile (s.strm.outbuf ++ r.produced) s.errno).2.1.written = _
    rw [hfw.2.2, ← List.append_assoc, hW, List.append_assoc, hall]

/-- One iteration under the invariant: the read, if there is one, delivers the next
chunk of the file; then `code_and_flush_inv` applies. -/
theorem iteration_inv {σ : Type} (coder : Coder σ) (R : σ → List Nat → List Nat → Prop)
    (input output W0 fed out : List Nat) (total_size : Nat) (s : Session σ)
    (hstep : ∀ (s : σ) (fed out inp : List Nat) (action : lzma_action) (avail_out : Nat),
      R s fed out → fed ++ inp <+: input →
      (action = lzma_action.LZMA_FINISH → fed ++ inp = input) → 0 < avail_out →
        (coder s inp action avail_out).consumed ≤ inp.length ∧
        (coder s inp action avail_out).produced.length ≤ avail_out ∧
        R (coder s inp action avail_out).internal
          (fed ++ inp.take (coder s inp action avail_out).consumed)
          (out ++ (coder s inp action avail_out).produced) ∧
        out ++ (coder s inp action avail_out).produced <+: output ∧
        ((coder s inp action avail_out).ret = LZMA_OK ∨
          (coder s inp action avail_out).ret = LZMA_STREAM_END) ∧
        ((coder s inp action avail_out).ret = LZMA_STREAM_END →
          action = lzma_action.LZMA_FINISH ∧
          (coder s inp action avail_out).consumed = inp.length ∧
          out ++ (coder s inp action avail_out).produced = output) ∧
        ((coder s inp action avail_out).ret = LZMA_OK →
          (inp ≠ [] ∨ action = lzma_action.LZMA_FINISH) →
          0 < (coder s inp action avail_out).consumed ∨
            0 < (coder s inp action avail_out).produced.length))
    (hinv : LoopInv R input output W0 fed out s) :
    ((iteration coder total_size s).1 = some 0 ∧
      (iteration coder total_size s).2.outfile.written = W0 ++ output) ∨
    (∃ fed1 out1, (iteration coder total_size s).1 = none ∧
      LoopInv R input output W0 fed1 out1 (iteration coder total_size s).2 ∧
      (input.length - fed1.length) + (output.length - out1.length) <
        (input.length - fed.length) + (output.length - out.length)) := by
  have hB : 0 < BUFSIZ := by decide
  obtain ⟨hR, hpre, hW, hlen, hroom, hferr, hbr⟩ := hinv
  unfold iteration
  by_cases hread : s.strm.next_in.length = 0 ∧ s.infile.feof = false
  · rw [if_pos hread]
    obtain ⟨hnil, hfeof⟩ := hread
    have hnil1 : s.strm.next_in = [] := List.length_eq_zero.1 hnil
    rcases hbr with ⟨_, hrun, rest, k, hk, hreads, hinput⟩ | ⟨h1, _, _⟩
    · cases k with
      | zero => omega
      | succ k =>
        rw [hnil1, List.append_nil] at hinput
        by_cases hshort : rest.length < BUFSIZ
        · -- the last read
          have hreads1 : s.infile.reads = [{ data := rest, eof := true, error := none }] := by
            rw [hreads]; simp only [file_reads, hshort, if_true]
          have htake : List.take BUFSIZ rest = rest := List.take_of_length_le (by omega)
          simp only [fread, hreads1, htake, hferr, Bool.or_true, Bool.or_false,
            Option.isSome_none, Bool.false_eq_true, if_false, if_true, Option.getD_none]
          refine code_and_flush_inv coder R input output W0 fed out _ hstep ?_ (Or.inr rfl)
          exact ⟨hR, hpre, hW, hlen, hroom, rfl, Or.inr ⟨rfl, rfl, hinput⟩⟩
        · -- a full read
          have hreads1 : s.infile.reads =
              { data := rest.take BUFSIZ, eof := false, error := none } ::
                file_reads k (rest.drop BUFSIZ) := by
            rw [hreads]; simp only [file_reads, hshort, if_false]
          have htake : List.take BUFSIZ (List.take BUFSIZ rest) = List.take BUFSIZ rest :=
            List.take_of_length_le (by rw [List.length_take]; omega)
          simp only [fread, hreads1, htake, hferr, hfeof, Bool.or_false, Option.isSome_none,
            Bool.false_eq_true, if_false, Option.getD_none]
          refine code_and_flush_inv coder R input output W0 fed out _ hstep ?_ (Or.inl ?_)
          · refine ⟨hR, hpre, hW, hlen, hroom, rfl, Or.inl ⟨rfl, hrun, rest.drop BUFSIZ, k, ?_,
              rfl, ?_⟩⟩
            · rw [List.length_drop]; omega
            · show fed ++ List.take BUFSIZ rest ++ List.drop BUFSIZ rest = input
              rw [List.append_assoc, List.take_append_drop]; exact hinput
          · show List.take BUFSIZ rest ≠ []
            intro h
            have := congrArg List.length h
            rw [List.length_take] at this
            simp only [List.length_nil] at this
            omega
    · rw [hfeof] at h1; cases h1
  · rw [if_neg hread]
    refine code_and_flush_inv coder R input output W0 fed out s hstep
      ⟨hR, hpre, hW, hlen, hroom, hferr, hbr⟩ ?_
    by_cases hnil : s.strm.next_in = []
    · right
      rcases hbr with ⟨h1, _, _⟩ | ⟨_, h2, _⟩
      · exact absurd ⟨by rw [hnil]; rfl, h1⟩ hread
      · exact h2
    · exact Or.inl hnil

/-- Under the invariant the loop returns 0 within one iteration more than the
number of bytes the codec has still to consume and to emit. -/
theorem stream_loop_inv {σ : Type} (coder : Coder σ) (R : σ → List Nat → List Nat → Prop)
    (input output W0 : List Nat) (total_size : Nat)
    (hstep : ∀ (s : σ) (fed out inp : List Nat) (action : lzma_action) (avail_out : Nat),
      R s fed out → fed ++ inp <+: input →
      (action = lzma_action.LZMA_FINISH → fed ++ inp = input) → 0 < avail_out →
        (coder s inp action avail_out).consumed ≤ inp.length ∧
        (coder s inp action avail_out).produced.length ≤ avail_out ∧
        R (coder s inp action avail_out).internal
          (fed ++ inp.take (coder s inp action avail_out).consumed)
          (out ++ (coder s inp action avail_out).produced) ∧
        out ++ (coder s inp action avail_out).produced <+: output ∧
        ((coder s inp action avail_out).ret = LZMA_OK ∨
          (coder s inp action avail_out).ret = LZMA_STREAM_END) ∧
        ((coder s inp action avail_out).ret = LZMA_STREAM_END →
          action = lzma_action.LZMA_FINISH ∧
          (coder s inp action avail_out).consumed = inp.length ∧
          out ++ (coder s inp action avail_out).produced = output) ∧
        ((coder s inp action avail_out).ret = LZMA_OK →
          (inp ≠ [] ∨ action = lzma_action.LZMA_FINISH) →
          0 < (coder s inp action avail_out).consumed ∨
            0 < (coder s inp action avail_out).produced.length))
    : ∀ (n : Nat) (fed out : List Nat) (s : Session σ),
      LoopInv R input output W0 fed out s →
      (input.length - fed.length) + (output.length - out.length) ≤ n →
      (stream_loop coder total_size (n + 1) s).1 = some 0 ∧
        (stream_loop coder total_size (n + 1) s).2.outfile.written = W0 ++ output := by
  intro n
  induction n with
  | zero =>
    intro fed out s hinv hm
    simp only [stream_loop]
    rcases iteration_inv coder R input output W0 fed out total_size s hstep hinv with
      ⟨h1, h2⟩ | ⟨fed1, out1, _, _, hlt⟩
    · cases hit : iteration coder total_size s with
      | mk st s1 =>
        rw [hit] at h1 h2
        simp only at h1
        subst h1
        exact ⟨rfl, h2⟩
    · omega
  | succ n ih =>
    intro fed out s hinv hm
    rw [stream_loop]
    rcases iteration_inv coder R input output W0 fed out total_size s hstep hinv with
      ⟨h1, h2⟩ | ⟨fed1, out1, h1, hinv1, hlt⟩
    · cases hit : iteration coder total_size s with
      | mk st s1 =>
        rw [hit] at h1 h2
        simp only at h1
        subst h1
        exact ⟨rfl, h2⟩
    · cases hit : iteration coder total_size s with
      | mk st s1 =>
        rw [hit] at h1 hinv1
        simp only at h1
        subst h1
        exact ih fed1 out1 s1 hinv1 (by omega)

/-- More fuel does not change the outcome of a loop that has returned. -/
theorem stream_loop_mono {σ : Type} (coder : Coder σ) (total_size : Nat) :
    ∀ (fuel k : Nat) (s : Session σ) (st : Nat),
      (stream_loop coder total_size fuel s).1 = some st →
      stream_loop coder total_size (fuel + k) s = stream_loop coder total_size fuel s := by
  intro fuel
  induction fuel with
  | zero => intro k s st h; simp [stream_loop] at h
  | succ fuel ih =>
    intro k s st h
    rw [show fuel + 1 + k = (fuel + k) + 1 by omega]
    rw [stream_loop] at h
    rw [stream_loop, stream_loop]
    cases hit : iteration coder total_size s with
    | mk st1 s1 =>
      rw [hit] at h
      cases st1 with
      | some x => rfl
      | none => exact ih k s1 st h

/-- A codec that transduces `input` to `output`, run by the loop on a regular file
holding `input` and a sink that accepts everything: with enough fuel the loop
returns 0 and has appended exactly `output` to the sink. -/
theorem stream_loop_transduces {σ : Type} (coder : Coder σ) (init : σ) (input output : List Nat)
    (h : Transduces coder init input output) (total_size : Nat) (outfile : OutFile)
    (hroom : outfile.room = []) (errno : Int) (current_size : Nat) :
    ∀ fuel, input.length + output.length + 1 ≤ fuel →
      (stream_loop coder total_size fuel
        (Session.start init (InFile.ofBytes input) outfile errno current_size)).1 = some 0 ∧
      (stream_loop coder total_size fuel
        (Session.start init (InFile.ofBytes input) outfile errno current_size)).2.outfile.written
          = outfile.written ++ output := by
  obtain ⟨R, hinit, hstep⟩ := h
  have hinv : LoopInv R input output outfile.written [] []
      (Session.start init (InFile.ofBytes input) outfile errno current_size) :=
    ⟨hinit, List.nil_prefix, rfl, (by decide : 0 < BUFSIZ), hroom, rfl,
      Or.inl ⟨rfl, rfl, input, input.length + 1, Nat.lt_succ_self _, rfl, rfl⟩⟩
  have hrun := stream_loop_inv coder R input output outfile.written total_size hstep
    (input.length + output.length) [] [] _ hinv (by simp)
  intro fuel hfuel
  obtain ⟨k, rfl⟩ : ∃ k, fuel = input.length + output.length + 1 + k :=
    ⟨fuel - (input.length + output.length + 1), by omega⟩
  rw [stream_loop_mono coder total_size _ k _ 0 hrun.1]
  exact hrun

/-- The storing codec meets the contract: it transduces every input to itself. -/
theorem copy_coder_transduces (D : List Nat) : Transduces copy_coder () D D := by
  refine ⟨fun _ fed out => fed = out, rfl, ?_⟩
  intro s fed out inp action avail_out hR hpre hfin havail
  subst hR
  have htake : List.take (min inp.length avail_out) inp = List.take avail_out inp := by
    rcases Nat.le_total inp.length avail_out with h | h
    · rw [Nat.min_eq_left h, List.take_of_length_le h, List.take_of_length_le (le_refl _)]
    · rw [Nat.min_eq_right h]
  refine ⟨Nat.min_le_left _ _, by simp [copy_coder], ?_, ?_, ?_, ?_, ?_⟩
  · show fed ++ List.take (min inp.length avail_out) inp = fed ++ List.take avail_out inp
    rw [htake]
  · show fed ++ List.take avail_out inp <+: D
    exact List.IsPrefix.trans
      ((List.prefix_append_right_inj fed).2 (List.take_prefix _ _)) hpre
  · show (if action = lzma_action.LZMA_FINISH ∧ inp.length ≤ avail_out then LZMA_STREAM_END
        else LZMA_OK) = LZMA_OK ∨
      (if action = lzma_action.LZMA_FINISH ∧ inp.length ≤ avail_out then LZMA_STREAM_END
        else LZMA_OK) = LZMA_STREAM_END
    split_ifs
    · exact Or.inr rfl
    · exact Or.inl rfl
  · intro hend
    have hend1 : (if action = lzma_action.LZMA_FINISH ∧ inp.length ≤ avail_out
        then LZMA_STREAM_END else LZMA_OK) = LZMA_STREAM_END := hend
    split_ifs at hend1 with hc
    · refine ⟨hc.1, Nat.min_eq_left hc.2, ?_⟩
      show fed ++ List.take avail_out inp = D
      rw [List.take_of_length_le hc.2]
      exact hfin hc.1
    · exact absurd hend1 (by decide)
  · intro hok hcall
    have hok1 : (if action = lzma_action.LZMA_FINISH ∧ inp.length ≤ avail_out
        then LZMA_STREAM_END else LZMA_OK) = LZMA_OK := hok
    split_ifs at hok1 with hc
    · exact absurd hok1 (by decide)
    · left
      show 0 < min inp.length avail_out
      rcases hcall with hne | hfinish
      · have : 0 < inp.length := List.length_pos.2 hne
        omega
      · have : ¬ inp.length ≤ avail_out := fun h => hc ⟨hfinish, h⟩
        omega

/-- What `load_offset` reads from a marker after which `%u` stored `v`. -/
theorem load_offset_of_stored (l : List Nat) (i v : Nat) (hv : v < 2 ^ 32)
    (h : ∀ k, k < (fmt_dec 10 v ++ [0]).length → l[i + 19 + k]? = (fmt_dec 10 v ++ [0])[k]?) :
    load_offset (l.drop i) = some v := by
  have hdrop := drop_eq_append_of_getElem? l (fmt_dec 10 v ++ [0]) (i + 19) h
  unfold load_offset
  rw [List.drop_drop, show i + MY_ZIP_DATA_OFFSET_HEADER_LEN = i + 19 from rfl, hdrop,
    List.append_assoc, List.singleton_append, strtoul_fmt_dec _ _ hv]
  have hv1 : v < 4294967296 := hv
  simp [Nat.mod_eq_of_lt hv1, hv1]

/-! ### Below 4 GiB -/

theorem check_ret_progress {σ : Type} (ret : Nat) (s : Session σ) :
    (check_ret ret s).2.progress = s.progress ∧
      (check_ret ret s).2.current_size = s.current_size ∧
      (check_ret ret s).2.infile = s.infile := by
  unfold check_ret
  split_ifs <;> exact ⟨rfl, rfl, rfl⟩

theorem code_and_flush_progress {σ : Type} (coder : Coder σ) (s : Session σ) :
    (code_and_flush coder s).2.progress = s.progress ∧
      (code_and_flush coder s).2.current_size = s.current_size ∧
      (code_and_flush coder s).2.infile = s.infile := by
  unfold code_and_flush
  simp only []
  split_ifs
  · exact ⟨rfl, rfl, rfl⟩
  · exact check_ret_progress _ _
  · exact check_ret_progress _ _

/-- One iteration keeps the progress invariant as long as the bytes read so far and
the bytes still to come stay below `2 ^ 32` together. -/
theorem iteration_progress {σ : Type} (coder : Coder σ) (total_size : Nat) (s : Session σ)
    (B : Nat) (hB : B < 2 ^ 32) (hsum : s.current_size + pending_bytes s.infile.reads = B)
    (hinv : ProgressInv s) :
    (iteration coder total_size s).2.current_size +
        pending_bytes (iteration coder total_size s).2.infile.reads = B ∧
      ProgressInv (iteration coder total_size s).2 := by
  obtain ⟨hsorted, hle, hlast⟩ := hinv
  have key : ∀ (s1 : Session σ) (n : Nat) (rs : List ReadResult),
      s1.current_size = (s.current_size + n) % 2 ^ 64 →
      s1.progress = s.progress ++ [print_progress ((s.current_size + n) % 2 ^ 64) total_size] →
      s1.infile.reads = rs → n + pending_bytes rs = pending_bytes s.infile.reads →
      s1.current_size + pending_bytes s1.infile.reads = B ∧ ProgressInv s1 := by
    intro s1 n rs hcs hprog hrs hn
    have hlt : s.current_size + n < 2 ^ 32 := by omega
    have hm64 : (s.current_size + n) % 2 ^ 64 = s.current_size + n :=
      Nat.mod_eq_of_lt (lt_trans hlt (by norm_num))
    have hm32 : (s.current_size + n) % 2 ^ 32 = s.current_size + n := Nat.mod_eq_of_lt hlt
    rw [hm64] at hcs hprog
    refine ⟨by rw [hcs, hrs]; omega, ?_, ?_, ?_⟩
    · rw [hprog, List.map_append, List.pairwise_append]
      refine ⟨hsorted, by simp, ?_⟩
      intro a ha b hb
      simp only [List.map_cons, List.map_nil, List.mem_singleton, print_progress] at hb
      rw [hb, hm32]
      have := hle a ha
      omega
    · intro x hx
      rw [hprog, List.map_append, List.mem_append] at hx
      rcases hx with hx | hx
      · have := hle x hx
        omega
      · simp only [List.map_cons, List.map_nil, List.mem_singleton, print_progress] at hx
        rw [hx, hm32, hcs]
    · intro p hp
      rw [hprog] at hp
      simp only [List.getLast?_append, List.getLast?_singleton, Option.or, Option.some.injEq]
        at hp
      rw [← hp, hcs]
      exact hm32
  have transfer : ∀ (s1 s2 : Session σ), s2.progress = s1.progress →
      s2.current_size = s1.current_size → s2.infile = s1.infile →
      (s1.current_size + pending_bytes s1.infile.reads = B ∧ ProgressInv s1) →
      (s2.current_size + pending_bytes s2.infile.reads = B ∧ ProgressInv s2) := by
    intro s1 s2 h1 h2 h3 h
    unfold ProgressInv at h ⊢
    rw [h1, h2, h3]
    exact h
  have cf := fun s1 => transfer s1 (code_and_flush coder s1).2
    (code_and_flush_progress coder s1).1 (code_and_flush_progress coder s1).2.1
    (code_and_flush_progress coder s1).2.2
  unfold iteration
  by_cases hread : s.strm.next_in.length = 0 ∧ s.infile.feof = false
  · rw [if_pos hread]
    cases hreads : s.infile.reads with
    | nil =>
      have hk := fun s1 h1 h2 h3 => key s1 0 [] h1 h2 h3 (by rw [hreads, Nat.zero_add])
      simp only [fread, hreads, List.length_nil]
      split_ifs
      · exact hk _ rfl rfl rfl
      · exact cf _ (hk _ rfl rfl rfl)
    | cons r rs =>
      have hk := fun s1 h1 h2 h3 => key s1 (List.take BUFSIZ r.data).length rs h1 h2 h3 (by
        rw [hreads, List.length_take]
        simp only [pending_bytes, List.map_cons, List.sum_cons])
      simp only [fread, hreads]
      split_ifs
      · exact hk _ rfl rfl rfl
      · exact cf _ (hk _ rfl rfl rfl)
      · exact cf _ (hk _ rfl rfl rfl)
  · rw [if_neg hread]
    exact cf s ⟨hsum, hsorted, hle, hlast⟩

theorem stream_loop_progress {σ : Type} (coder : Coder σ) (total_size : Nat) (B : Nat)
    (hB : B < 2 ^ 32) : ∀ (fuel : Nat) (s : Session σ),
      s.current_size + pending_bytes s.infile.reads = B → ProgressInv s →
      (stream_loop coder total_size fuel s).2.current_size +
          pending_bytes (stream_loop coder total_size fuel s).2.infile.reads = B ∧
        ProgressInv (stream_loop coder total_size fuel s).2 := by
  intro fuel
  induction fuel with
  | zero => intro s hsum hinv; exact ⟨hsum, hinv⟩
  | succ fuel ih =>
    intro s hsum hinv
    have hit := iteration_progress coder total_size s B hB hsum hinv
    rw [stream_loop]
    cases hres : iteration coder total_size s with
    | mk st s1 =>
      rw [hres] at hit
      cases st with
      | some status => exact hit
      | none => exact ih s1 hit.1 hit.2

/-- Below 4 GiB the progress claim holds: when the input delivers fewer than
`2 ^ 32` bytes, the first arguments `print_progress` receives during a run of
`compress` are non-decreasing, the last one is `current_size`, and `current_size`
is the number of bytes read (the size of the input once all of it was read). -/
theorem progress_monotone_below_4GiB {σ : Type} (coder : Coder σ) (total_size fuel : Nat)
    (internal : σ) (infile : InFile) (outfile : OutFile) (errno : Int)
    (hsmall : pending_bytes infile.reads < 2 ^ 32) :
    (compress coder total_size fuel internal infile outfile errno 0).2.current_size +
        pending_bytes
          (compress coder total_size fuel internal infile outfile errno 0).2.infile.reads =
        pending_bytes infile.reads ∧
      ProgressInv (compress coder total_size fuel internal infile outfile errno 0).2 :=
  stream_loop_progress coder total_size _ hsmall fuel _ (Nat.zero_add _)
    (show ProgressInv (Session.start internal infile outfile errno 0) from
      ⟨List.Pairwise.nil, fun x hx => by simp [Session.start] at hx,
        fun p hp => by simp [Session.start] at hp⟩)

/-- Below 4 GiB the offset claim holds: for an image shorter than `2 ^ 32` bytes
that holds both templates, `*len` is the length of the image and `load_offset`
reads that length back from the patched marker. -/
theorem offset_readback_below_4GiB (img : List Nat)
    (hT : MY_ZIP_DATA_OFFSET <:+: img) (hM : MY_ZIP_MODE <:+: img)
    (hsize : img.length < 2 ^ 32) :
    ∃ hdr i, firstAt img MY_ZIP_DATA_OFFSET i ∧
      init_decompress_header (ExeFile.ok img) = some (hdr, img.length) ∧
      hdr.length = img.length ∧ load_offset (hdr.drop i) = some img.length := by
  obtain ⟨i, j, hi, hj, hinit⟩ := init_decompress_header_of_infix img hT hM
  have hsp := sprintf_bytes_spec (img.length % 2 ^ 32)
  have hb := occursAt_bound img _ i (by decide) hi.1
  have hTlen : MY_ZIP_DATA_OFFSET.length = 39 := rfl
  have hload := load_offset_patched img i j hi.1 hj.1
  rw [Nat.mod_eq_of_lt hsize] at hinit hload
  refine ⟨_, i, hi, hinit, ?_, hload⟩
  rw [List.length_set]
  exact length_store _ _ _ (by omega)

/-! ### Patching a patched image -/

/-- The NUL that `sprintf` stores after the digits ends up in the patched header. -/
theorem getElem?_patched_nul (img : List Nat) (i j : Nat)
    (hi : occursAt img MY_ZIP_DATA_OFFSET i) (hj : occursAt img MY_ZIP_MODE j) :
    ((sprintf_u img (i + 19) img.length).set (j + 12) 49)[i + 19 +
        (fmt_dec 10 (img.length % 2 ^ 32)).length]? = some 0 := by
  have hd := markers_disjoint img i j hi hj
  have hl := length_fmt_dec_le 10 (img.length % 2 ^ 32)
  rw [getElem?_patched img i j _ hi hj, if_neg (by omega),
    if_pos ⟨by omega, by rw [List.length_append, List.length_singleton]; omega⟩,
    List.getElem?_append_right (by omega)]
  have hsub : i + 19 + (fmt_dec 10 (img.length % 2 ^ 32)).length - (i + 19) -
      (fmt_dec 10 (img.length % 2 ^ 32)).length = 0 := by omega
  rw [hsub]
  rfl

/-- After the patch the Data-Offset template no longer occurs where it was found. -/
theorem not_occursAt_template_patched (img : List Nat) (i j : Nat)
    (hi : occursAt img MY_ZIP_DATA_OFFSET i) (hj : occursAt img MY_ZIP_MODE j) :
    ¬ occursAt ((sprintf_u img (i + 19) img.length).set (j + 12) 49) MY_ZIP_DATA_OFFSET i := by
  intro hocc
  have hl := length_fmt_dec_le 10 (img.length % 2 ^ 32)
  have hTlen : MY_ZIP_DATA_OFFSET.length = 39 := rfl
  have h1 := hocc (19 + (fmt_dec 10 (img.length % 2 ^ 32)).length) (by omega)
  rw [← Nat.add_assoc, getElem?_patched_nul img i j hi hj] at h1
  exact (by decide : ∀ e, e < 39 → some 0 ≠ MY_ZIP_DATA_OFFSET[e]?) _ (by omega) h1

/-- After the patch the Mode template no longer occurs where it was found. -/
theorem not_occursAt_mode_patched (img : List Nat) (i j : Nat)
    (hi : occursAt img MY_ZIP_DATA_OFFSET i) (hj : occursAt img MY_ZIP_MODE j) :
    ¬ occursAt ((sprintf_u img (i + 19) img.length).set (j + 12) 49) MY_ZIP_MODE j := by
  intro hocc
  have h1 := hocc 12 (by decide)
  rw [getElem?_patched img i j _ hi hj, if_pos rfl] at h1
  exact absurd h1 (by decide)

/-- The patch creates no occurrence of the Mode template. -/
theorem occursAt_mode_of_patched (img : List Nat) (i j q : Nat)
    (hi : occursAt img MY_ZIP_DATA_OFFSET i)
    (hq : occursAt ((sprintf_u img (i + 19) img.length).set (j + 12) 49) MY_ZIP_MODE q) :
    occursAt img MY_ZIP_MODE q := by
  have hsp := sprintf_bytes_spec (img.length % 2 ^ 32)
  have hb := occursAt_bound img _ i (by decide) hi
  have hTlen : MY_ZIP_DATA_OFFSET.length = 39 := rfl
  have hlen : (sprintf_u img (i + 19) img.length).length = img.length :=
    length_store _ _ _ (by omega)
  refine (occursAt_mode_store_iff img _ i q hi (by omega) hsp.2).1 ?_
  intro e he
  have h1 := hq e he
  rw [List.getElem?_set] at h1
  by_cases h12 : j + 12 = q + e
  · rw [if_pos h12] at h1
    split_ifs at h1
    · exact absurd h1 ((by decide : ∀ e, e < 13 → some 49 ≠ MY_ZIP_MODE[e]?) e he)
    · exact absurd h1 ((by decide : ∀ e, e < 13 → none ≠ MY_ZIP_MODE[e]?) e he)
  · rw [if_neg h12] at h1
    exact h1

/-- The patch creates no occurrence of the Data-Offset template. -/
theorem occursAt_template_of_patched (img : List Nat) (i j q : Nat)
    (hi : occursAt img MY_ZIP_DATA_OFFSET i) (hj : occursAt img MY_ZIP_MODE j)
    (hq : occursAt ((sprintf_u img (i + 19) img.length).set (j + 12) 49) MY_ZIP_DATA_OFFSET q) :
    occursAt img MY_ZIP_DATA_OFFSET q := by
  have hd := markers_disjoint img i j hi hj
  have hl := length_fmt_dec_le 10 (img.length % 2 ^ 32)
  have hTlen : MY_ZIP_DATA_OFFSET.length = 39 := rfl
  have hWlen : (fmt_dec 10 (img.length % 2 ^ 32) ++ [0]).length =
      (fmt_dec 10 (img.length % 2 ^ 32)).length + 1 := by
    rw [List.length_append, List.length_singleton]
  have hnul := getElem?_patched_nul img i j hi hj
  have hM0 : ((sprintf_u img (i + 19) img.length).set (j + 12) 49)[j]? = some 77 := by
    rw [getElem?_patched img i j _ hi hj, if_neg (by omega), if_neg (by omega)]
    exact hj 0 (by decide)
  have hT0 : ((sprintf_u img (i + 19) img.length).set (j + 12) 49)[i]? = some 77 := by
    rw [getElem?_patched img i j _ hi hj, if_neg (by omega), if_neg (by omega)]
    exact hi 0 (by decide)
  have hM77 : ∀ d, d < 39 → MY_ZIP_DATA_OFFSET[d]? = some 77 → d = 0 := by decide
  have clear1 : ∀ e, e < 39 → q + e ≠ j + 12 := by
    intro e he heq
    have h1 := hq e (by omega)
    rw [heq, getElem?_patched img i j _ hi hj, if_pos rfl] at h1
    have he12 : 12 < e :=
      (by decide : ∀ e, e < 39 → some 49 = MY_ZIP_DATA_OFFSET[e]? → 12 < e) e he h1
    have h2 := hq (e - 12) (by omega)
    rw [show q + (e - 12) = j by omega, hM0] at h2
    have := hM77 (e - 12) (by omega) h2.symm
    omega
  have clear2 : ∀ e, e < 39 → ¬ (i + 19 ≤ q + e ∧
      q + e < i + 19 + (fmt_dec 10 (img.length % 2 ^ 32) ++ [0]).length) := by
    intro e he hin
    rw [hWlen] at hin
    have hp0 : q + 39 ≤ i + 19 + (fmt_dec 10 (img.length % 2 ^ 32)).length := by
      by_contra hc
      have h1 := hq (i + 19 + (fmt_dec 10 (img.length % 2 ^ 32)).length - q) (by omega)
      rw [show q + (i + 19 + (fmt_dec 10 (img.length % 2 ^ 32)).length - q) =
        i + 19 + (fmt_dec 10 (img.length % 2 ^ 32)).length by omega, hnul] at h1
      exact (by decide : ∀ e, e < 39 → some 0 ≠ MY_ZIP_DATA_OFFSET[e]?) _ (by omega) h1
    have h2 := hq (i - q) (by omega)
    rw [show q + (i - q) = i by omega, hT0] at h2
    have := hM77 (i - q) (by omega) h2.symm
    omega
  intro e he
  have h1 := hq e he
  rw [getElem?_patched img i j _ hi hj, if_neg (clear1 e (by omega)),
    if_neg (clear2 e (by omega))] at h1
  exact h1

/-- Without an occurrence of the Data-Offset template the patch fails. -/
theorem init_decompress_header_template_absent (x : List Nat)
    (h : ∀ q, ¬ occursAt x MY_ZIP_DATA_OFFSET q) :
    init_decompress_header (ExeFile.ok x) = none := by
  have h1 : my_memmem x x.length MY_ZIP_DATA_OFFSET MY_ZIP_DATA_OFFSET_LEN = none :=
    (my_memmem_none_iff x MY_ZIP_DATA_OFFSET).2 h
  simp only [init_decompress_header, ExeFile.ok, get_file_size, List.take_length,
    List.length_take, Nat.min_self, Nat.sub_self, List.replicate_zero, List.append_nil, h1]
  simp

/-- Without an occurrence of the Mode template the patch fails. -/
theorem init_decompress_header_mode_absent (x : List Nat)
    (h : ∀ q, ¬ occursAt x MY_ZIP_MODE q) :
    init_decompress_header (ExeFile.ok x) = none := by
  by_cases hT : ∃ q, occursAt x MY_ZIP_DATA_OFFSET q
  · obtain ⟨i, hi⟩ := exists_firstAt_of_infix x _ ((infix_iff_occursAt _ _).2 hT)
    have hsp := sprintf_bytes_spec (x.length % 2 ^ 32)
    have hb := occursAt_bound x _ i (by decide) hi.1
    have hTlen : MY_ZIP_DATA_OFFSET.length = 39 := rfl
    have hlen : (sprintf_u x (i + 19) x.length).length = x.length :=
      length_store _ _ _ (by omega)
    have h1 : my_memmem x x.length MY_ZIP_DATA_OFFSET MY_ZIP_DATA_OFFSET_LEN = some i :=
      (my_memmem_some_iff x MY_ZIP_DATA_OFFSET i).2 hi
    have h2 : my_memmem (sprintf_u x (i + 19) x.length) x.length MY_ZIP_MODE
        MY_ZIP_MODE_LEN = none := by
      have := (my_memmem_none_iff (sprintf_u x (i + 19) x.length) MY_ZIP_MODE).2
        (fun q hq => h q ((occursAt_mode_store_iff x _ i q hi.1 (by omega) hsp.2).1 hq))
      rw [hlen] at this
      exact this
    simp only [init_decompress_header, ExeFile.ok, get_file_size, List.take_length,
      List.length_take, Nat.min_self, Nat.sub_self, List.replicate_zero, List.append_nil, h1,
      MY_ZIP_DATA_OFFSET_HEADER_LEN, h2]
    simp
  · exact init_decompress_header_template_absent x (fun q hq => hT ⟨q, hq⟩)

/-- A successful patch found both templates and returns the buffer patched at
their first occurrences. -/
theorem init_decompress_header_some (x y : List Nat) (l : Nat)
    (h : init_decompress_header (ExeFile.ok x) = some (y, l)) :
    ∃ i j, firstAt x MY_ZIP_DATA_OFFSET i ∧ firstAt x MY_ZIP_MODE j ∧
      y = (sprintf_u x (i + 19) x.length).set (j + 12) 49 ∧ l = x.length % 2 ^ 32 := by
  by_cases hT : ∃ q, occursAt x MY_ZIP_DATA_OFFSET q
  · by_cases hM : ∃ q, occursAt x MY_ZIP_MODE q
    · obtain ⟨i, j, hi, hj, hinit⟩ := init_decompress_header_of_infix x
        ((infix_iff_occursAt _ _).2 hT) ((infix_iff_occursAt _ _).2 hM)
      rw [hinit] at h
      simp only [Option.some.injEq, Prod.mk.injEq] at h
      exact ⟨i, j, hi, hj, h.1.symm, h.2.symm⟩
    · rw [init_decompress_header_mode_absent x (fun q hq => hM ⟨q, hq⟩)] at h
      cases h
  · rw [init_decompress_header_template_absent x (fun q hq => hT ⟨q, hq⟩)] at h
    cases h

/-- A successful patch changes the buffer: it stores a NUL inside the template. -/
theorem patch_changes_bytes (x y : List Nat) (l : Nat)
    (h : init_decompress_header (ExeFile.ok x) = some (y, l)) : y ≠ x := by
  obtain ⟨i, j, hi, hj, hy, _⟩ := init_decompress_header_some x y l h
  intro hxy
  have hl := length_fmt_dec_le 10 (x.length % 2 ^ 32)
  have hTlen : MY_ZIP_DATA_OFFSET.length = 39 := rfl
  have hnul := getElem?_patched_nul x i j hi.1 hj.1
  rw [← hy, hxy, Nat.add_assoc, hi.1 _ (by omega)] at hnul
  exact (by decide : ∀ e, e < 39 → MY_ZIP_DATA_OFFSET[e]? ≠ some 0) _ (by omega) hnul

/-- Without the label of the Data-Offset Marker in the program file, whatever the
other calls do: `my_memmem` and `init_decompress_header` return `NULL`, and
`compress_main` ends at the diagnostic of line 538, having executed the header step
only, with the output file never opened. -/
theorem compress_main_missing_marker {σ : Type} (env : PackEnv σ) (opts : List CompressOpt)
    (c : Config) (fuel : Nat)
    (hsize : env.argv0.fstat = some env.argv0.contents.length)
    (hopts : compress_options {} opts = .ok c)
    (hno : ¬ MY_ZIP_DATA_OFFSET_LABEL <:+: env.argv0.contents) :
    my_memmem env.argv0.contents env.argv0.contents.length
        MY_ZIP_DATA_OFFSET MY_ZIP_DATA_OFFSET_LEN = none ∧
      init_decompress_header env.argv0 = none ∧
      compress_main env opts 2 fuel =
        after_undefined env.header_diag [Stage.init_header] none ∧
      (compress_main env opts 2 fuel).output = none ∧
      (compress_main env opts 2 fuel).status ≠ some EXIT_SUCCESS := by
  obtain ⟨h1, h2⟩ := init_decompress_header_none env.argv0 hsize hno
  have h3 : compress_main env opts 2 fuel =
      after_undefined env.header_diag [Stage.init_header] none := by
    simp [compress_main, hopts, h2]
  refine ⟨h1, h2, h3, ?_, ?_⟩
  · rw [h3]; unfold after_undefined; cases env.header_diag <;> rfl
  · rw [h3]; unfold after_undefined; cases env.header_diag <;> simp [EXIT_FAILURE, EXIT_SUCCESS]

/-- The two templates in `image_4GiB`, and its length. -/
theorem image_4GiB_markers :
    firstAt image_4GiB MY_ZIP_DATA_OFFSET 0 ∧ firstAt image_4GiB MY_ZIP_MODE 39 ∧
      image_4GiB.length = 2 ^ 32 + 52 := by
  have hlen : image_4GiB.length = 2 ^ 32 + 52 := by
    simp only [image_4GiB, List.length_append, List.length_replicate]
    rfl
  have hTlen : MY_ZIP_DATA_OFFSET.length = 39 := rfl
  have hMlen : MY_ZIP_MODE.length = 13 := rfl
  have hT : occursAt image_4GiB MY_ZIP_DATA_OFFSET 0 := by
    intro e he
    unfold image_4GiB
    rw [List.append_assoc, Nat.zero_add, List.getElem?_append_left he]
  have hM : occursAt image_4GiB MY_ZIP_MODE 39 := by
    intro e he
    unfold image_4GiB
    rw [List.getElem?_append_left (by simp only [List.length_append]; omega),
      List.getElem?_append_right (by omega)]
    have hsub : 39 + e - MY_ZIP_DATA_OFFSET.length = e := by omega
    rw [hsub]
  exact ⟨⟨hT, fun q hq => by omega⟩,
    ⟨hM, fun q hq hocc => by have := markers_disjoint _ 0 q hT hocc; omega⟩, hlen⟩

/-! ## The claims -/

/-- C1 (code defect, evaluated at the failing input). On the image `image_4GiB` of
`2 ^ 32 + 52` bytes, which holds both templates (the Data-Offset template first at
index 0), `init_decompress_header` succeeds, but `*len` is 52 and `load_offset`
reads 52 back from the patched marker: the length modulo `2 ^ 32`, not the byte
length `2 ^ 32 + 52` of the patched image. -/
theorem offset_readback_truncated :
    MY_ZIP_DATA_OFFSET <:+: image_4GiB ∧ MY_ZIP_MODE <:+: image_4GiB ∧
    firstAt image_4GiB MY_ZIP_DATA_OFFSET 0 ∧
    ∃ hdr, init_decompress_header (ExeFile.ok image_4GiB) = some (hdr, 52) ∧
      hdr.length = 2 ^ 32 + 52 ∧ load_offset (hdr.drop 0) = some 52 := by
  have hlen : image_4GiB.length = 2 ^ 32 + 52 := by
    simp only [image_4GiB, List.length_append, List.length_replicate]
    rfl
  have hmod : image_4GiB.length % 2 ^ 32 = 52 := by rw [hlen]; rfl
  have hT : occursAt image_4GiB MY_ZIP_DATA_OFFSET 0 := by
    intro e he
    unfold image_4GiB
    rw [List.append_assoc, Nat.zero_add, List.getElem?_append_left he]
  have hM : occursAt image_4GiB MY_ZIP_MODE 39 := by
    intro e he
    unfold image_4GiB
    rw [List.getElem?_append_left (by
      have : MY_ZIP_MODE.length = 13 := rfl
      simp only [List.length_append]
      have : MY_ZIP_DATA_OFFSET.length = 39 := rfl
      omega)]
    rw [List.getElem?_append_right (by have : MY_ZIP_DATA_OFFSET.length = 39 := rfl; omega)]
    have hsub : 39 + e - MY_ZIP_DATA_OFFSET.length = e := by
      have : MY_ZIP_DATA_OFFSET.length = 39 := rfl
      omega
    rw [hsub]
  have hfT : firstAt image_4GiB MY_ZIP_DATA_OFFSET 0 := ⟨hT, fun q hq => by omega⟩
  have hfM : firstAt image_4GiB MY_ZIP_MODE 39 :=
    ⟨hM, fun q hq hocc => by have := markers_disjoint _ 0 q hT hocc; omega⟩
  refine ⟨(infix_iff_occursAt _ _).2 ⟨0, hT⟩, (infix_iff_occursAt _ _).2 ⟨39, hM⟩, hfT, ?_⟩
  have hinit := init_decompress_header_ok _ 0 39 hfT hfM
  have hload := load_offset_patched _ 0 39 hT hM
  rw [hmod] at hinit hload
  refine ⟨(sprintf_u image_4GiB (0 + 19) image_4GiB.length).set (39 + 12) 49, hinit, ?_, hload⟩
  have hsp := sprintf_bytes_spec (image_4GiB.length % 2 ^ 32)
  rw [List.length_set]
  unfold sprintf_u
  rw [length_store _ _ _ (by omega), hlen]

/-- C2. Round trip, relative to the contract of the codec library. Let the encoder
transduce `D` to `Z` and the decoder transduce `Z` back to `D` (`Transduces`), let
the program image hold both templates and be shorter than 4 GiB, and let every
library call succeed. Then, for every byte sequence `D` (empty or longer than
`BUFSIZ` alike) and with enough fuel, `compress_main` returns `EXIT_SUCCESS` and
writes the archive `hdr ++ Z`, the patched header followed by the output of
`compress`; the offset `load_offset` reads in that archive is the length of the
header; and `decompress_main`, run on that archive, returns `EXIT_SUCCESS` and
writes exactly `D`. -/
theorem round_trip {σ τ : Type} (enc : Coder σ) (e0 : σ) (dec : Coder τ) (d0 : τ)
    (D Z : List Nat) (henc : Transduces enc e0 D Z) (hdec : Transduces dec d0 Z D)
    (img : List Nat) (hT : MY_ZIP_DATA_OFFSET <:+: img) (hM : MY_ZIP_MODE <:+: img)
    (hsize : img.length < 2 ^ 32) (cputhreads : Nat) (opts : List CompressOpt) (c : Config)
    (hopts : compress_options {} opts = .ok c) :
    ∃ (hdr : List Nat) (i n : Nat),
      firstAt img MY_ZIP_DATA_OFFSET i ∧ hdr.length = img.length ∧
      load_offset ((hdr ++ Z).drop i) = some hdr.length ∧
      ∀ fuel, n ≤ fuel →
        compress_main (PackEnv.ok enc e0 img cputhreads D) opts 2 fuel =
          { status := some EXIT_SUCCESS,
            stages := [Stage.init_header, Stage.init_encoder, Stage.open_input,
              Stage.file_size, Stage.open_output, Stage.write_header, Stage.codec_loop,
              Stage.close_input, Stage.close_output],
            output := some (hdr ++ Z) } ∧
        decompress_main (UnpackEnv.ok dec d0 (hdr ++ Z) ((hdr ++ Z).drop i)) [] 1 fuel =
          { status := some EXIT_SUCCESS,
            stages := [Stage.init_decoder, Stage.open_input, Stage.load_offset,
              Stage.file_size, Stage.seek, Stage.open_output, Stage.codec_loop,
              Stage.close_input, Stage.close_output],
            output := some D } := by
  obtain ⟨i, j, hi, hj, hinit⟩ := init_decompress_header_of_infix img hT hM
  have hmod : img.length % 2 ^ 32 = img.length := Nat.mod_eq_of_lt hsize
  rw [hmod] at hinit
  have hsp := sprintf_bytes_spec (img.length % 2 ^ 32)
  have hb := occursAt_bound img _ i (by decide) hi.1
  have hTlen : MY_ZIP_DATA_OFFSET.length = 39 := rfl
  have hd := markers_disjoint img i j hi.1 hj.1
  generalize hhdr : (sprintf_u img (i + 19) img.length).set (j + 12) 49 = hdr at hinit
  have hlen : hdr.length = img.length := by
    rw [← hhdr, List.length_set]
    exact length_store _ _ _ (by omega)
  -- the offset read back from the archive
  have hload : load_offset ((hdr ++ Z).drop i) = some img.length := by
    have := load_offset_of_stored (hdr ++ Z) i (img.length % 2 ^ 32)
      (Nat.mod_lt _ (by norm_num)) (by
        intro k hk
        rw [List.getElem?_append_left (by omega), ← hhdr,
          getElem?_patched img i j _ hi.1 hj.1, if_neg (by omega), if_pos (by omega)]
        congr 1
        omega)
    rw [hmod] at this
    exact this
  -- the two codec loops
  have hpack := fun total => stream_loop_transduces enc e0 D Z henc total
    { room := [], written := [] ++ List.take img.length hdr,
      log := [] ++ [{ requested := (List.take img.length hdr).length,
                      accepted := (List.take img.length hdr).length, errno := 0 }] } rfl 0 0
  have hunpack := fun total => stream_loop_transduces dec d0 Z D hdec total
    { room := [], written := [], log := [] } rfl 0 0
  have htake : List.take img.length hdr = hdr := List.take_of_length_le (by omega)
  have hdropZ : List.drop img.length (hdr ++ Z) = Z := by
    rw [← hlen]; exact List.drop_left _ _
  refine ⟨hdr, i, D.length + Z.length + 1, hi, hlen, by rw [hlen]; exact hload, ?_⟩
  intro fuel hfuel
  constructor
  · obtain ⟨hp1, hp2⟩ := hpack D.length fuel (by omega)
    simp only [InFile.ofBytes] at hp1 hp2
    simp only [compress_main, hopts, PackEnv.ok, hinit, init_encoder, get_file_size, fwrite,
      compress, if_true, hp1, hp2]
    simp [htake, hlen, EXIT_SUCCESS]
  · obtain ⟨hu1, hu2⟩ := hunpack (((hdr ++ Z).length + 2 ^ 64 - img.length) % 2 ^ 64) fuel
      (by omega)
    simp only [InFile.ofBytes] at hu1 hu2
    simp only [decompress_main, decompress_options, UnpackEnv.ok, init_decoder, hload,
      get_file_size, decompress, if_true, hdropZ, hu1, hu2]
    simp [EXIT_SUCCESS]

/-- Witness of C2: the program `image_small`, the input `[1, 2, 3]`, the storing
codec on both sides. -/
theorem round_trip_witness :
    Transduces copy_coder () [1, 2, 3] [1, 2, 3] ∧
    MY_ZIP_DATA_OFFSET <:+: image_small ∧ MY_ZIP_MODE <:+: image_small ∧
    image_small.length < 2 ^ 32 ∧ compress_options {} [] = .ok {} ∧
    ∃ (hdr : List Nat) (i n : Nat),
      firstAt image_small MY_ZIP_DATA_OFFSET i ∧ hdr.length = image_small.length ∧
      load_offset ((hdr ++ [1, 2, 3]).drop i) = some hdr.length ∧
      ∀ fuel, n ≤ fuel →
        compress_main (PackEnv.ok copy_coder () image_small 4 [1, 2, 3]) [] 2 fuel =
          { status := some EXIT_SUCCESS,
            stages := [Stage.init_header, Stage.init_encoder, Stage.open_input,
              Stage.file_size, Stage.open_output, Stage.write_header, Stage.codec_loop,
              Stage.close_input, Stage.close_output],
            output := some (hdr ++ [1, 2, 3]) } ∧
        decompress_main
            (UnpackEnv.ok copy_coder () (hdr ++ [1, 2, 3]) ((hdr ++ [1, 2, 3]).drop i)) [] 1 fuel =
          { status := some EXIT_SUCCESS,
            stages := [Stage.init_decoder, Stage.open_input, Stage.load_offset,
              Stage.file_size, Stage.seek, Stage.open_output, Stage.codec_loop,
              Stage.close_input, Stage.close_output],
            output := some [1, 2, 3] } :=
  ⟨copy_coder_transduces _, by decide, by decide, by decide, rfl,
    round_trip copy_coder () copy_coder () [1, 2, 3] [1, 2, 3] (copy_coder_transduces _)
      (copy_coder_transduces _) image_small (by decide) (by decide) (by decide) 4 [] {} rfl⟩

/-- C3 (code defect, evaluated at the failing input). The program file `[1, 2, 3]`
does not hold the label of the Data-Offset Marker: `my_memmem` returns `NULL` and
`init_decompress_header` returns `NULL`, and the output file is never opened. But
`compress_main` then calls `fprintf` with a `%s` and no argument: where reading the
missing argument faults, the process is killed by `SIGSEGV` and `compress_main`
returns no status at all; it returns `EXIT_FAILURE` only where that call happens to
return. -/
theorem missing_marker_diagnostic_kills :
    ¬ MY_ZIP_DATA_OFFSET_LABEL <:+: [1, 2, 3] ∧
    my_memmem [1, 2, 3] 3 MY_ZIP_DATA_OFFSET MY_ZIP_DATA_OFFSET_LEN = none ∧
    init_decompress_header (ExeFile.ok [1, 2, 3]) = none ∧
    compress_main (PackEnv.ok copy_coder () [1, 2, 3] 4 [10, 20]) [CompressOpt.verbose] 2 5 =
      { status := none, stages := [Stage.init_header], output := none,
        signal := some SIGSEGV } ∧
    compress_main { PackEnv.ok copy_coder () [1, 2, 3] 4 [10, 20] with header_diag := none }
        [CompressOpt.verbose] 2 5 =
      { status := some EXIT_FAILURE, stages := [Stage.init_header], output := none,
        signal := none } := by
  refine ⟨by decide, by decide, by decide, ?_, ?_⟩
  · decide
  · decide

/-- C4, as amended. For every image that holds both templates, of whatever length,
the patched buffer has as many bytes as the image and differs from it only inside
the 20-byte value region that follows the label of the first occurrence of the
Data-Offset Marker template (label and placeholder, 39 bytes), and at the value
digit of the first occurrence of the Mode Marker template; the bytes the offset
write stores there (at most ten digits and the NUL) number at most 20. For every
image shorter than `2 ^ 32` bytes the length `*len` that the function returns is
the length of the image. -/
theorem patch_frame (img : List Nat)
    (hT : MY_ZIP_DATA_OFFSET <:+: img) (hM : MY_ZIP_MODE <:+: img) :
    ∃ hdr len i j, init_decompress_header (ExeFile.ok img) = some (hdr, len) ∧
      firstAt img MY_ZIP_DATA_OFFSET i ∧ firstAt img MY_ZIP_MODE j ∧
      hdr.length = img.length ∧ (img.length < 2 ^ 32 → len = img.length) ∧
      (∀ q, hdr[q]? ≠ img[q]? → (i + 19 ≤ q ∧ q < i + 19 + 20) ∨ q = j + 12) ∧
      sprintf_u img (i + 19) img.length =
        store img (i + 19) (fmt_dec 10 (img.length % 2 ^ 32) ++ [0]) ∧
      (fmt_dec 10 (img.length % 2 ^ 32) ++ [0]).length ≤ 20 := by
  obtain ⟨i, j, hi, hj, hinit⟩ := init_decompress_header_of_infix img hT hM
  have hsp := sprintf_bytes_spec (img.length % 2 ^ 32)
  have hb := occursAt_bound img _ i (by decide) hi.1
  have hTlen : MY_ZIP_DATA_OFFSET.length = 39 := rfl
  refine ⟨_, _, i, j, hinit, hi, hj, ?_, fun h => Nat.mod_eq_of_lt h, ?_, rfl, by omega⟩
  · rw [List.length_set]
    exact length_store _ _ _ (by omega)
  · intro q hq
    rw [getElem?_patched img i j q hi.1 hj.1] at hq
    by_cases h1 : q = j + 12
    · exact Or.inr h1
    · rw [if_neg h1] at hq
      by_cases h2 : i + 19 ≤ q ∧ q < i + 19 + (fmt_dec 10 (img.length % 2 ^ 32) ++ [0]).length
      · exact Or.inl ⟨h2.1, by omega⟩
      · rw [if_neg h2] at hq
        exact absurd rfl hq

/-- Witness of C4 as amended: the image `image_small`. -/
theorem patch_frame_witness :
    MY_ZIP_DATA_OFFSET <:+: image_small ∧ MY_ZIP_MODE <:+: image_small ∧
    ∃ hdr len i j, init_decompress_header (ExeFile.ok image_small) = some (hdr, len) ∧
      firstAt image_small MY_ZIP_DATA_OFFSET i ∧ firstAt image_small MY_ZIP_MODE j ∧
      hdr.length = image_small.length ∧
      (image_small.length < 2 ^ 32 → len = image_small.length) ∧
      (∀ q, hdr[q]? ≠ image_small[q]? → (i + 19 ≤ q ∧ q < i + 19 + 20) ∨ q = j + 12) ∧
      sprintf_u image_small (i + 19) image_small.length =
        store image_small (i + 19) (fmt_dec 10 (image_small.length % 2 ^ 32) ++ [0]) ∧
      (fmt_dec 10 (image_small.length % 2 ^ 32) ++ [0]).length ≤ 20 :=
  ⟨by decide, by decide, patch_frame image_small (by decide) (by decide)⟩

/-- C4 as stated fails twice. On `image_label_first`, which holds both templates,
the first occurrence of the label `"MY_ZIP_DATA_OFFSET:"` is at index 0, so the
20-byte region that follows it is `[19, 39)`, and the first Mode Marker is at index
78, its digit at 90; the patched buffer differs from the image at index 58, where
it holds `'9'` in place of `'1'`. On `image_4GiB`, which holds both templates and
has `2 ^ 32 + 52` bytes, the length `*len` that the function returns is 52. -/
theorem patch_frame_label_counterexample :
    (MY_ZIP_DATA_OFFSET <:+: image_label_first ∧ MY_ZIP_MODE <:+: image_label_first ∧
      firstAt image_label_first MY_ZIP_DATA_OFFSET_LABEL 0 ∧
      firstAt image_label_first MY_ZIP_MODE 78 ∧
      ∃ hdr len, init_decompress_header (ExeFile.ok image_label_first) = some (hdr, len) ∧
        hdr[58]? = some 57 ∧ image_label_first[58]? = some 49 ∧
        ¬ ((0 + 19 ≤ 58 ∧ 58 < 0 + 19 + 20) ∨ 58 = 78 + 12)) ∧
    (MY_ZIP_DATA_OFFSET <:+: image_4GiB ∧ MY_ZIP_MODE <:+: image_4GiB ∧
      image_4GiB.length = 2 ^ 32 + 52 ∧
      ∃ hdr len, init_decompress_header (ExeFile.ok image_4GiB) = some (hdr, len) ∧
        len = 52 ∧ len ≠ image_4GiB.length) := by
  have hL : firstAt image_label_first MY_ZIP_DATA_OFFSET_LABEL 0 :=
    (my_memmem_some_iff _ _ _).1 (by decide)
  have hT : firstAt image_label_first MY_ZIP_DATA_OFFSET 39 :=
    (my_memmem_some_iff _ _ _).1 (by decide)
  have hM : firstAt image_label_first MY_ZIP_MODE 78 :=
    (my_memmem_some_iff _ _ _).1 (by decide)
  obtain ⟨hT4, hM4, hlen4⟩ := image_4GiB_markers
  have hmod : image_4GiB.length % 2 ^ 32 = 52 := by rw [hlen4]; rfl
  have hinit4 := init_decompress_header_ok _ 0 39 hT4 hM4
  rw [hmod] at hinit4
  refine ⟨⟨(infix_iff_occursAt _ _).2 ⟨39, hT.1⟩, (infix_iff_occursAt _ _).2 ⟨78, hM.1⟩, hL,
    hM, _, _, init_decompress_header_ok _ 39 78 hT hM, ?_, ?_, ?_⟩,
    ⟨(infix_iff_occursAt _ _).2 ⟨0, hT4.1⟩, (infix_iff_occursAt _ _).2 ⟨39, hM4.1⟩, hlen4,
      _, 52, hinit4, rfl, ?_⟩⟩
  · decide
  · decide
  · decide
  · rw [hlen4]; decide

/-- C5. `load_mode` on the template `"MY_ZIP_MODE:0"` selects Pack (0); and for
every image that holds both templates `init_decompress_header` succeeds, the
first Mode Marker of the image reads `"MY_ZIP_MODE:1"` in the patched header, and
`load_mode` on it selects Unpack (1). -/
theorem mode_flip (img : List Nat)
    (hT : MY_ZIP_DATA_OFFSET <:+: img) (hM : MY_ZIP_MODE <:+: img) :
    load_mode MY_ZIP_MODE = 0 ∧
    ∃ hdr len j, init_decompress_header (ExeFile.ok img) = some (hdr, len) ∧
      firstAt img MY_ZIP_MODE j ∧ hdr[j + MY_ZIP_MODE_HEADER_LEN]? = some 49 ∧
      (hdr.drop j).take MY_ZIP_MODE_LEN = MY_ZIP_MODE.take MY_ZIP_MODE_HEADER_LEN ++ [49] ∧
      load_mode (hdr.drop j) = 1 := by
  refine ⟨by decide, ?_⟩
  obtain ⟨i, j, hi, hj, hinit⟩ := init_decompress_header_of_infix img hT hM
  have hd := markers_disjoint img i j hi.1 hj.1
  have hsp := sprintf_bytes_spec (img.length % 2 ^ 32)
  have hget : ∀ e, e < 13 →
      ((sprintf_u img (i + 19) img.length).set (j + 12) 49)[j + e]? =
        (MY_ZIP_MODE.take 12 ++ [49])[e]? := by
    intro e he
    rw [getElem?_patched img i j _ hi.1 hj.1]
    by_cases h12 : e = 12
    · subst h12; rw [if_pos rfl]; rfl
    · rw [if_neg (by omega), if_neg (by omega), hj.1 e he,
        List.getElem?_append_left (by simp [MY_ZIP_MODE]; omega),
        List.getElem?_take_of_lt (by omega)]
  have h49 := hget 12 (by omega)
  have hdrop := drop_eq_append_of_getElem? _ (MY_ZIP_MODE.take 12 ++ [49]) j (by
    intro k hk
    exact hget k (by simpa [MY_ZIP_MODE] using hk))
  refine ⟨_, _, j, hinit, hj, ?_, ?_, ?_⟩
  · rw [show MY_ZIP_MODE_HEADER_LEN = 12 from rfl, h49]; rfl
  · rw [hdrop]
    simp [MY_ZIP_MODE, MY_ZIP_MODE_LEN, MY_ZIP_MODE_HEADER_LEN]
  · rw [hdrop]
    simp [load_mode, MY_ZIP_MODE, MY_ZIP_MODE_HEADER_LEN]

/-- Witness of C5: the image `image_small`. -/
theorem mode_flip_witness :
    MY_ZIP_DATA_OFFSET <:+: image_small ∧ MY_ZIP_MODE <:+: image_small ∧
    ∃ hdr len j, init_decompress_header (ExeFile.ok image_small) = some (hdr, len) ∧
      firstAt image_small MY_ZIP_MODE j ∧ hdr[j + MY_ZIP_MODE_HEADER_LEN]? = some 49 ∧
      (hdr.drop j).take MY_ZIP_MODE_LEN = MY_ZIP_MODE.take MY_ZIP_MODE_HEADER_LEN ++ [49] ∧
      load_mode (hdr.drop j) = 1 :=
  ⟨by decide, by decide, (mode_flip image_small (by decide) (by decide)).2⟩

/-- C6 (code defect, evaluated at the failing input). With no thread option
(`thread_cnt` keeps its default -1) and 16 hardware threads, `init_encoder` hands
16 threads to `lzma_stream_encoder_mt`: more than `MAX_COMPRESS_THREAD` = 8. -/
theorem default_thread_count_unclamped :
    compress_options {} [] = .ok {} ∧
    (init_encoder {} 16 (fun mt => (LZMA_OK, mt))).2.2.threads = 16 ∧
    ¬ ((16 : Int) ≤ MAX_COMPRESS_THREAD) := by
  refine ⟨rfl, ?_, by decide⟩
  decide

/-- C7 (code defect, evaluated at the failing input). With the thread option 0 and
an undetectable hardware count (0), option parsing leaves `thread_cnt` = 0 and
`init_encoder` hands 0 threads to `lzma_stream_encoder_mt`, not 1. -/
theorem zero_thread_request_yields_zero :
    compress_options {} [CompressOpt.thread 0] = .ok { thread_cnt := 0 } ∧
    (init_encoder { thread_cnt := 0 } 0 (fun mt => (LZMA_OK, mt))).2.2.threads = 0 := by
  refine ⟨rfl, ?_⟩
  decide

/-- C8. In `compress` and in `decompress`, for every codec, every input, every
sink and every number of iterations: the `fwrite` calls of the run are the log
entries `new` it appends, and either all of them were accepted in full and the
status is not 3, or the run made no call after its first short write, returned the
write-error status 3 (never 0) and recorded the `errno` of that write in
`fileout_err`. -/
theorem short_write_detected {σ : Type} (coder : Coder σ) (total_size fuel : Nat) (internal : σ)
    (infile : InFile) (outfile : OutFile) (errno : Int) (current_size : Nat) :
    (∃ new,
      (compress coder total_size fuel internal infile outfile errno current_size).2.outfile.log
        = outfile.log ++ new ∧
      ShortWriteDetected new
        (compress coder total_size fuel internal infile outfile errno current_size).1
        (compress coder total_size fuel internal infile outfile errno current_size).2.fileout_err)
    ∧
    (∃ new,
      (decompress coder total_size fuel internal infile outfile errno current_size).2.outfile.log
        = outfile.log ++ new ∧
      ShortWriteDetected new
        (decompress coder total_size fuel internal infile outfile errno current_size).1
        (decompress coder total_size fuel internal infile outfile errno
          current_size).2.fileout_err) :=
  ⟨stream_loop_detects coder total_size fuel _, stream_loop_detects coder total_size fuel _⟩

/-- C9 (code defect, evaluated at the failing input). An unpacker run on
`archive_small` in which `fstat` on the program file fails, and one in which
`fseek` to the data offset fails: `decompress_main` does not stop at the failed
step. It goes on to open the output file and to run the codec loop, and returns
`EXIT_SUCCESS`. -/
theorem failed_stage_not_aborting :
    decompress_main { UnpackEnv.ok copy_coder () archive_small (archive_small.drop 17) with
        self_fstat := none } [] 1 10 =
      { status := some EXIT_SUCCESS,
        stages := [Stage.init_decoder, Stage.open_input, Stage.load_offset, Stage.file_size,
          Stage.seek, Stage.open_output, Stage.codec_loop, Stage.close_input,
          Stage.close_output],
        output := some [1, 2, 3] } ∧
    decompress_main { UnpackEnv.ok copy_coder () archive_small (archive_small.drop 17) with
        fseek_ok := false } [] 1 10 =
      { status := some EXIT_SUCCESS,
        stages := [Stage.init_decoder, Stage.open_input, Stage.load_offset, Stage.file_size,
          Stage.seek, Stage.open_output, Stage.codec_loop, Stage.close_input,
          Stage.close_output],
        output := some archive_small } := by
  constructor <;> decide

/-- C10 (code defect, evaluated at the failing input). `compress` on an input of
`2 ^ 32` bytes (524288 full reads, then the end of the file), with `total_size` =
`2 ^ 32`: the run reads the whole input and returns 0, `current_size` ends at
`2 ^ 32`, and `print_progress` is called 524289 times. Its first parameter is a
`uint32_t`: call 524287 receives 4294959104, call 524288 receives 0, and the final
call receives 0, which is less than the call before and is not the input size. -/
theorem progress_wraps_at_4GiB :
    ∃ s, compress copy_coder (2 ^ 32) 524289 ()
        { reads := reads_4GiB, feof := false, ferror := false }
        { room := [], written := [], log := [] } 0 0 = (some 0, s) ∧
      s.current_size = 2 ^ 32 ∧ s.progress.length = 524289 ∧
      s.progress[524286]? = some (4294959104, 0) ∧
      s.progress[524287]? = some (0, 0) ∧
      s.progress[524288]? = some (0, 0) := by
  have hfull : ∀ r, r ∈ List.replicate 524288
      ({ data := List.replicate 8192 0, eof := false, error := none } : ReadResult) → r.full := by
    intro r hr
    rw [List.eq_of_mem_replicate hr]
    exact ⟨List.length_replicate _ _, rfl, rfl⟩
  obtain ⟨s1, hloop, hidle, hrd, hcur, hprog⟩ :=
    stream_loop_full_reads (2 ^ 32)
      (List.replicate 524288 { data := List.replicate 8192 0, eof := false, error := none })
      [{ data := [], eof := true, error := none }] 1
      (Session.start () { reads := reads_4GiB, feof := false, ferror := false }
        { room := [], written := [], log := [] } 0 0)
      ⟨rfl, rfl, rfl, rfl, rfl, rfl⟩ rfl hfull
      (by rw [List.length_replicate]; decide)
  rw [List.length_replicate] at hloop hcur hprog
  have hcur1 : s1.current_size = 2 ^ 32 := by rw [hcur]; rfl
  obtain ⟨s2, hit, hcur2, hprog2⟩ :=
    iteration_last_read (2 ^ 32) s1 _ [] hidle hrd rfl rfl rfl (by rw [hcur1]; decide)
  have hrun : compress copy_coder (2 ^ 32) 524289 ()
      { reads := reads_4GiB, feof := false, ferror := false }
      { room := [], written := [], log := [] } 0 0 = (some 0, s2) := by
    unfold compress
    rw [show (524289 : Nat) = 524288 + 1 from rfl, hloop]
    simp only [stream_loop, hit]
  have hP : s2.progress =
      (List.range 524288).map (fun t => print_progress (0 + (t + 1) * BUFSIZ) (2 ^ 32)) ++
        [print_progress (2 ^ 32) (2 ^ 32)] := by
    have e1 : (Session.start () { reads := reads_4GiB, feof := false, ferror := false }
        { room := [], written := [], log := [] } 0 0).progress = [] := rfl
    have e2 : (Session.start () { reads := reads_4GiB, feof := false, ferror := false }
        { room := [], written := [], log := [] } 0 0).current_size = 0 := rfl
    rw [e1, e2, List.nil_append] at hprog
    rw [hprog2, hprog, hcur1]
  have hlen : ((List.range 524288).map
      (fun t => print_progress (0 + (t + 1) * BUFSIZ) (2 ^ 32))).length = 524288 := by
    rw [List.length_map, List.length_range]
  refine ⟨s2, hrun, by rw [hcur2, hcur1], ?_, ?_, ?_, ?_⟩
  · rw [hP, List.length_append, hlen]; rfl
  · rw [hP, List.getElem?_append_left (by rw [hlen]; decide), List.getElem?_map,
      List.getElem?_range (by decide)]
    rfl
  · rw [hP, List.getElem?_append_left (by rw [hlen]; decide), List.getElem?_map,
      List.getElem?_range (by decide)]
    rfl
  · rw [hP, List.getElem?_append_right (by rw [hlen]), hlen]
    rfl

/-- C11, as amended. For every image that holds both templates, a second
application of `init_decompress_header` to the patched buffer (whose length is
that of the image) does not reproduce the first patch: the needles of `my_memmem`
are the complete templates, and these no longer occur at the two patched markers.
The second application returns `NULL` when the image held one occurrence only of
the Data-Offset template, or one only of the Mode template; when it succeeds it
derives the same offset, but it patches later occurrences of both templates, and
its bytes differ from those of the first patch. -/
theorem repatch_finds_later_markers (img : List Nat)
    (hT : MY_ZIP_DATA_OFFSET <:+: img) (hM : MY_ZIP_MODE <:+: img) :
    ∃ hdr len i j, init_decompress_header (ExeFile.ok img) = some (hdr, len) ∧
      firstAt img MY_ZIP_DATA_OFFSET i ∧ firstAt img MY_ZIP_MODE j ∧
      hdr.length = img.length ∧
      ¬ occursAt hdr MY_ZIP_DATA_OFFSET i ∧ ¬ occursAt hdr MY_ZIP_MODE j ∧
      (((∀ q, occursAt img MY_ZIP_DATA_OFFSET q → q = i) ∨
          (∀ q, occursAt img MY_ZIP_MODE q → q = j)) →
        init_decompress_header (ExeFile.ok hdr) = none) ∧
      (∀ hdr2 len2, init_decompress_header (ExeFile.ok hdr) = some (hdr2, len2) →
        len2 = len ∧ hdr2 ≠ hdr ∧
        ∃ i2 j2, i < i2 ∧ occursAt img MY_ZIP_DATA_OFFSET i2 ∧
          j < j2 ∧ occursAt img MY_ZIP_MODE j2 ∧
          hdr2 = (sprintf_u hdr (i2 + 19) hdr.length).set (j2 + 12) 49) := by
  obtain ⟨i, j, hi, hj, hinit⟩ := init_decompress_header_of_infix img hT hM
  have hsp := sprintf_bytes_spec (img.length % 2 ^ 32)
  have hb := occursAt_bound img _ i (by decide) hi.1
  have hTlen : MY_ZIP_DATA_OFFSET.length = 39 := rfl
  have hnT := not_occursAt_template_patched img i j hi.1 hj.1
  have hnM := not_occursAt_mode_patched img i j hi.1 hj.1
  have hlen : ((sprintf_u img (i + 19) img.length).set (j + 12) 49).length = img.length := by
    rw [List.length_set]
    exact length_store _ _ _ (by omega)
  refine ⟨_, _, i, j, hinit, hi, hj, hlen, hnT, hnM, ?_, ?_⟩
  · rintro (huniq | huniq)
    · refine init_decompress_header_template_absent _ (fun q hq => ?_)
      have h1 := occursAt_template_of_patched img i j q hi.1 hj.1 hq
      rw [huniq q h1] at hq
      exact hnT hq
    · refine init_decompress_header_mode_absent _ (fun q hq => ?_)
      have h1 := occursAt_mode_of_patched img i j q hi.1 hq
      rw [huniq q h1] at hq
      exact hnM hq
  · intro hdr2 len2 h2
    obtain ⟨i2, j2, hi2, hj2, hy, hl⟩ := init_decompress_header_some _ hdr2 len2 h2
    have hoT := occursAt_template_of_patched img i j i2 hi.1 hj.1 hi2.1
    have hoM := occursAt_mode_of_patched img i j j2 hi.1 hj2.1
    refine ⟨by rw [hl, hlen], patch_changes_bytes _ hdr2 len2 h2, i2, j2, ?_, hoT, ?_, hoM, hy⟩
    · rcases Nat.lt_trichotomy i i2 with h | h | h
      · exact h
      · rw [← h] at hi2; exact absurd hi2.1 hnT
      · exact absurd hoT (hi.2 i2 h)
    · rcases Nat.lt_trichotomy j j2 with h | h | h
      · exact h
      · rw [← h] at hj2; exact absurd hj2.1 hnM
      · exact absurd hoM (hj.2 j2 h)

/-- Witness of C11 as amended: the image `image_small`. -/
theorem repatch_finds_later_markers_witness :
    MY_ZIP_DATA_OFFSET <:+: image_small ∧ MY_ZIP_MODE <:+: image_small ∧
    ∃ hdr len i j, init_decompress_header (ExeFile.ok image_small) = some (hdr, len) ∧
      firstAt image_small MY_ZIP_DATA_OFFSET i ∧ firstAt image_small MY_ZIP_MODE j ∧
      hdr.length = image_small.length ∧
      ¬ occursAt hdr MY_ZIP_DATA_OFFSET i ∧ ¬ occursAt hdr MY_ZIP_MODE j ∧
      (((∀ q, occursAt image_small MY_ZIP_DATA_OFFSET q → q = i) ∨
          (∀ q, occursAt image_small MY_ZIP_MODE q → q = j)) →
        init_decompress_header (ExeFile.ok hdr) = none) ∧
      (∀ hdr2 len2, init_decompress_header (ExeFile.ok hdr) = some (hdr2, len2) →
        len2 = len ∧ hdr2 ≠ hdr ∧
        ∃ i2 j2, i < i2 ∧ occursAt image_small MY_ZIP_DATA_OFFSET i2 ∧
          j < j2 ∧ occursAt image_small MY_ZIP_MODE j2 ∧
          hdr2 = (sprintf_u hdr (i2 + 19) hdr.length).set (j2 + 12) 49) :=
  ⟨by decide, by decide, repatch_finds_later_markers image_small (by decide) (by decide)⟩

/-- C11 as stated fails on `image_small`, which holds both templates: the first
patch succeeds and keeps the length of 58 bytes, and the second application, to
the patched buffer, returns `NULL`. -/
theorem repatch_counterexample :
    MY_ZIP_DATA_OFFSET <:+: image_small ∧ MY_ZIP_MODE <:+: image_small ∧
    init_decompress_header (ExeFile.ok image_small) =
      some ((sprintf_u image_small (17 + 19) 58).set (2 + 12) 49, 58) ∧
    ((sprintf_u image_small (17 + 19) 58).set (2 + 12) 49).length = image_small.length ∧
    init_decompress_header
      (ExeFile.ok ((sprintf_u image_small (17 + 19) 58).set (2 + 12) 49)) = none := by
  refine ⟨by decide, by decide, by decide, by decide, by decide⟩

end Myz
